import Mathlib

/-!
Verification development for the HF-model-feed Model Intake & Trust Pipeline.

The Python sources (`namespace_policy.py`, `param_estimator.py`, `run_stats.py`,
`model_filters.py`, `main.py`) are shallowly embedded below: strings are Lean
`String`s manipulated as `List Char`, Python's unbounded integers are `Int`/`Nat`,
fallible lookups are `Option`, and external I/O results (HTTP fetches, database
rows) are passed to the embedded functions as explicit arguments.
-/

namespace HFFeed

/-! ### Generic string helpers (Python `str` operations on `List Char`) -/

/-- Python whitespace characters (ASCII subset of `str.split` / `str.strip`). -/
def isWs (c : Char) : Bool :=
  c.toNat = 32 || c.toNat = 9 || c.toNat = 10 || c.toNat = 13 || c.toNat = 11 || c.toNat = 12

/-- Python `str.lower()` (ASCII case folding, which is all the sources rely on). -/
def lowerChars (l : List Char) : List Char := l.map Char.toLower

def lowerStr (s : String) : String := String.mk (lowerChars s.toList)

/-- Python `str.strip()` : drop leading and trailing whitespace. -/
def stripWs (l : List Char) : List Char :=
  ((l.dropWhile (fun c => isWs c)).reverse.dropWhile (fun c => isWs c)).reverse

/-- Python `str.strip(chars)` for a single character. -/
def stripChar (ch : Char) (l : List Char) : List Char :=
  ((l.dropWhile (fun c => c = ch)).reverse.dropWhile (fun c => c = ch)).reverse

/-- `pat` occurs at the start of `s` (Python `str.startswith`). -/
def strStarts : List Char → List Char → Bool
  | [], _ => true
  | _ :: _, [] => false
  | p :: ps, c :: cs => p = c && strStarts ps cs

/-- Python `pat in s` : substring containment. -/
def strHas (pat : List Char) : List Char → Bool
  | [] => strStarts pat []
  | c :: cs => strStarts pat (c :: cs) || strHas pat cs

/-- Suffix of `s` after the first occurrence of `pat` (Python `s.split(pat, 1)[1]`),
`none` when `pat` does not occur. -/
def afterFirst (pat : List Char) : List Char → Option (List Char)
  | [] => if strStarts pat [] then some [] else none
  | c :: cs =>
      if strStarts pat (c :: cs) then some (List.drop pat.length (c :: cs))
      else afterFirst pat cs

/-- Python `" ".join(s.split())` : collapse runs of whitespace, trim the ends. -/
def splitWsAux (cur : List Char) (acc : List (List Char)) : List Char → List (List Char)
  | [] => if cur.isEmpty then acc.reverse else (cur.reverse :: acc).reverse
  | c :: cs =>
      if isWs c then
        if cur.isEmpty then splitWsAux [] acc cs
        else splitWsAux [] (cur.reverse :: acc) cs
      else splitWsAux (c :: cur) acc cs

def splitWs (l : List Char) : List (List Char) := splitWsAux [] [] l

def collapseWs (l : List Char) : List Char :=
  (splitWs l).intersperse [' '] |>.flatten

/-! ### `namespace_policy.py` -/

/-- `normalize_namespace`: lower-case + strip, drop a `huggingface.co/` URL
prefix, keep only the owner segment before the first `/`. -/
def normalize_namespace (ns : String) : String :=
  let s := stripWs (lowerChars ns.toList)
  let s :=
    if strHas "huggingface.co/".toList s then
      match afterFirst "huggingface.co/".toList s with
      | some rest => stripChar '/' rest
      | none => s
    else s
  let s :=
    if s.contains '/' then stripWs (s.takeWhile (fun c => c ≠ '/'))
    else s
  String.mk s

/-- `config.BLACKLIST_NAMESPACES` (static configuration, env overrides omitted). -/
def BLACKLIST_NAMESPACES : List String :=
  ["ubergarm", "unsloth", "mradermacher", "aaryank", "bartowski", "mlx-community",
   "noctrex", "onnxruntime", "lmstudio-community", "ggml-org", "devquasar", "thireus"]

/-- `config.WHITELIST_NAMESPACES` (static configuration, env overrides omitted). -/
def WHITELIST_NAMESPACES : List String :=
  ["jan-hq", "janhq", "AIDC-AI", "ai21labs", "Alibaba-NLP", "allenai", "apple",
   "arcee-ai", "BAAI", "baidu", "black-forest-labs", "briaai", "browser-use",
   "ByteDance", "ChatDOC", "codelion", "CohereLabs", "coqui", "datalab-to",
   "deepseek-ai", "eagerworks", "echo840", "EssentialAI", "facebook", "Falconsai",
   "FunAudioLLM", "google", "GritLM", "hexgrad", "HuggingFaceTB", "ibm-granite",
   "ibm-research", "inclusionAI", "IndexTeam", "intfloat", "IQuestLab", "jinaai",
   "Lajavaness", "lightonai", "Linq-AI-Research", "LiquidAI", "Maincode",
   "marin-community", "meta-llama", "microsoft", "MiniMaxAI", "mistralai",
   "moondream", "nanonets", "nomic-ai", "NousResearch", "nvidia", "openai",
   "openbmb", "opendatalab", "OpenGVLab", "PaddlePaddle", "pyannote", "Qwen",
   "rednote-hilab", "reducto", "ResembleAI", "Salesforce", "sentence-transformers",
   "ServiceNow-AI", "skt", "Skywork", "stepfun-ai", "tanaos", "tencent",
   "TomoroAI", "Tongyi-MAI", "Tongyi-Zhiwen", "utter-project", "vidore", "Wan-AI",
   "XiaomiMiMo", "zai-org", "HIT-TMG", "codefuse-ai", "upstage", "meituan-longcat",
   "PrimeIntellect", "CalmState", "naver-hyperclovax", "NC-AI-consortium-VAETKI",
   "LGAI-EXAONE"]

/-- `BASE_BLACKLIST`: the static deny-list, pre-normalized. -/
def BASE_BLACKLIST : List String := BLACKLIST_NAMESPACES.map normalize_namespace

/-- `BASE_WHITELIST`: the static allow-list, pre-normalized. -/
def BASE_WHITELIST : List String := WHITELIST_NAMESPACES.map normalize_namespace

/-- Normalization applied by `set_dynamic_blacklist` / `set_dynamic_whitelist`
to entries loaded into the dynamic lists (empty keys are discarded). -/
def normalizedDynamic (raw : List String) : List String :=
  (raw.map normalize_namespace).filter (fun k => k ≠ "")

/-- The combined deny-list `BLACKLIST = BASE_BLACKLIST | DYNAMIC_BLACKLIST`
after `set_dynamic_blacklist raw`. -/
def combinedBlacklist (rawDyn : List String) : List String :=
  BASE_BLACKLIST ++ normalizedDynamic rawDyn

/-- The combined allow-list `WHITELIST = BASE_WHITELIST | DYNAMIC_WHITELIST`
after `set_dynamic_whitelist raw`. -/
def combinedWhitelist (rawDyn : List String) : List String :=
  BASE_WHITELIST ++ normalizedDynamic rawDyn

/-- `classify_namespace`, parameterized by the raw dynamic lists that were last
passed to `set_dynamic_blacklist` / `set_dynamic_whitelist`. -/
def classify_namespace (rawDynBL rawDynWL : List String) (ns : String) :
    String × Option String :=
  let key := normalize_namespace ns
  if key ∈ combinedBlacklist rawDynBL then
    ("deny_blacklist", some "skip:blacklisted_namespace")
  else if key ∈ combinedWhitelist rawDynWL then
    ("allow_whitelist", some "allow:whitelisted_namespace")
  else
    ("allow", none)

/-! ### `param_estimator.py`

The model configuration (`config.json` / `params.json`) is a JSON object; the
estimator inspects both individual fields and the serialized JSON text (for the
`"moe"` substring test in `_detect_moe`), so we embed a small JSON value type
together with Python's `json.dumps` (default separators, string escaping
omitted — the configs in scope contain no characters needing escapes). -/

inductive Jval where
  | num (n : Int)
  | str (s : String)
  | bool (b : Bool)
  | null
  | arr (l : List Jval)
  | obj (l : List (String × Jval))

/-- Python truthiness of a JSON value (absent keys are `Option.none` outside). -/
def truthy : Jval → Bool
  | .num n => n ≠ 0
  | .str s => s ≠ ""
  | .bool b => b
  | .null => false
  | .arr l => ¬ l.isEmpty
  | .obj l => ¬ l.isEmpty

/-- Python `int(...)` on the JSON values that occur in the fields the estimator
reads (numbers and booleans; other shapes do not arise there). -/
def jToInt : Jval → Int
  | .num n => n
  | .bool b => if b then 1 else 0
  | _ => 0

mutual
/-- `json.dumps` with the default separators `", "` and `": "`. -/
def jdumps : Jval → String
  | .num n => toString n
  | .str s => "\"" ++ s ++ "\""
  | .bool true => "true"
  | .bool false => "false"
  | .null => "null"
  | .arr l => "[" ++ String.intercalate ", " (jdumpsList l) ++ "]"
  | .obj l => "\x7b" ++ String.intercalate ", " (jdumpsObj l) ++ "\x7d"

def jdumpsList : List Jval → List String
  | [] => []
  | v :: vs => jdumps v :: jdumpsList vs

def jdumpsObj : List (String × Jval) → List String
  | [] => []
  | (k, v) :: kvs => ("\"" ++ k ++ "\": " ++ jdumps v) :: jdumpsObj kvs
end

/-- A parsed JSON object (association list; `dict.get` takes the first match). -/
abbrev Cfg := List (String × Jval)

def cfgGet (c : Cfg) (key : String) : Option Jval :=
  (c.find? (fun kv => kv.1 = key)).map Prod.snd

/-- Python `a or b or ...` over `dict.get` results: first truthy value. -/
def firstTruthy : List (Option Jval) → Option Jval
  | [] => none
  | none :: rest => firstTruthy rest
  | some v :: rest => if truthy v then some v else firstTruthy rest

/-- `cfg.get("moe", {}) if isinstance(..., dict) else {}`. -/
def moeNode (c : Cfg) : Cfg :=
  match cfgGet c "moe" with
  | some (.obj o) => o
  | _ => []

/-- Mixture-of-experts info extracted by `_detect_moe`. -/
structure MoeInfo where
  is_moe : Bool
  num_experts : Int
  experts_per_tok : Int
  shared_experts : Int
deriving DecidableEq, Repr

/-- `_detect_moe`: expert counts with truthiness-based fallbacks, plus the
substring scan of the lower-cased serialized config. -/
def detect_moe (c : Cfg) : MoeInfo :=
  let txt := lowerChars (jdumps (.obj c)).toList
  let m := moeNode c
  let numExperts :=
    match firstTruthy [cfgGet c "num_local_experts", cfgGet c "num_experts",
        cfgGet m "num_experts"] with
    | some v => jToInt v
    | none => 1
  let expertsPerTok :=
    match firstTruthy [cfgGet c "num_experts_per_tok", cfgGet c "num_experts_per_token",
        cfgGet m "num_experts_per_tok"] with
    | some v => jToInt v
    | none => 1
  let sharedExperts :=
    match firstTruthy [cfgGet c "num_shared_experts", cfgGet m "num_shared_experts"] with
    | some v => jToInt v
    | none => 0
  let isMoe := decide (1 < numExperts) || strHas "mixture-of-experts".toList txt
      || strHas "moe".toList txt
  ⟨isMoe, numExperts, expertsPerTok, sharedExperts⟩

/-- Hidden size: `cfg.get("hidden_size") or cfg.get("dim") or cfg.get("d_model")`. -/
def hiddenVal (c : Cfg) : Option Int :=
  (firstTruthy [cfgGet c "hidden_size", cfgGet c "dim", cfgGet c "d_model"]).map jToInt

/-- Layer count, with the `layer_types` length fallback. -/
def layersVal (c : Cfg) : Option Int :=
  match firstTruthy [cfgGet c "num_hidden_layers", cfgGet c "n_layers"] with
  | some v => some (jToInt v)
  | none =>
      match cfgGet c "layer_types" with
      | some (.arr l) => if 0 < l.length then some (l.length : Int) else none
      | _ => none

/-- Vocabulary size: `cfg.get("vocab_size") or 32000`. -/
def vocabVal (c : Cfg) : Int :=
  match firstTruthy [cfgGet c "vocab_size"] with
  | some v => jToInt v
  | none => 32000

/-- Feed-forward size: `intermediate_size` / `hidden_dim` / `decoder_ffn_dim` /
`moe.expert_hidden_dim`. -/
def interVal (c : Cfg) : Option Int :=
  (firstTruthy [cfgGet c "intermediate_size", cfgGet c "hidden_dim",
    cfgGet c "decoder_ffn_dim", cfgGet (moeNode c) "expert_hidden_dim"]).map jToInt

/-- `(dense_count, moe_count)` split: from an `is_moe_layer` list when present,
else `first_k_dense_replace` (defaulting to 0) against the layer count. -/
def denseMoeCounts (c : Cfg) (layers : Int) : Int × Int :=
  match cfgGet c "is_moe_layer" with
  | some (.arr l) =>
      if 0 < l.length then
        let moeCount := (l.filter truthy).length
        ((l.length - moeCount : Int), (moeCount : Int))
      else
        dflt c layers
  | _ => dflt c layers
where
  dflt (c : Cfg) (layers : Int) : Int × Int :=
    let denseCount :=
      match firstTruthy [cfgGet c "first_k_dense_replace",
          cfgGet (moeNode c) "first_k_dense_replace"] with
      | some v => jToInt v
      | none => 0
    (denseCount, layers - denseCount)

/-- Result tuple of `_heuristic_params_from_config`. -/
structure HeurOut where
  total : Option Int
  active : Option Int
  is_moe : Bool
  experts : String
  notes : List String
deriving DecidableEq, Repr

/-- `_heuristic_params_from_config`: decoder-only transformer / MoE parameter
heuristic over the parsed configuration. -/
def heuristic_params_from_config (c : Cfg) : HeurOut :=
  match hiddenVal c with
  | none => ⟨none, none, false, "Unknown", ["config_missing:hidden_size/dim/d_model"]⟩
  | some h =>
    match layersVal c with
    | none => ⟨none, none, false, "Unknown", ["config_missing:num_hidden_layers/n_layers"]⟩
    | some layers =>
      let vocab := vocabVal c
      match interVal c with
      | none => ⟨none, none, false, "Unknown", ["config_missing:intermediate_size"]⟩
      | some inter =>
        let mi := detect_moe c
        let expertsStr :=
          if mi.is_moe then toString mi.experts_per_tok ++ "/" ++ toString mi.num_experts
          else "Dense"
        let (denseCount, moeCount) := denseMoeCounts c layers
        let embeddingP := vocab * h
        let baseLayerP := 4 * (h * h)
        let denseMlp := 3 * h * inter
        let activeMlp := (mi.experts_per_tok + mi.shared_experts) * denseMlp
        let totalMlp := (mi.num_experts + mi.shared_experts) * denseMlp
        let totalActive := embeddingP + layers * baseLayerP + denseCount * denseMlp +
          moeCount * activeMlp
        let totalParams := embeddingP + layers * baseLayerP + denseCount * denseMlp +
          moeCount * totalMlp
        let notes := ["heuristic:decoder_only_transformer_or_moe"]
        ⟨some totalParams, some totalActive, mi.is_moe, expertsStr, notes⟩

/-- One entry of a repository file listing (external fetch result). -/
structure FileDetail where
  path : String
  size : Int
  securityStatus : Option String
deriving DecidableEq, Repr

def WEIGHT_EXTS : List String := [".safetensors", ".bin", ".pt", ".pth"]

def strEndsWithAny (s : String) (exts : List String) : Bool :=
  exts.any (fun e => strStarts e.toList.reverse s.toList.reverse)

/-- `_estimate_from_filesize`: total weight-file bytes over the bytes-per-param
constant (default 2.0; the float truncation `int(size / 2.0)` is modelled as
integer division, which agrees for all sizes below the float-precision range). -/
def estimate_from_filesize (file_details : Option (List FileDetail)) : Option Int :=
  match file_details with
  | none => none
  | some [] => none
  | some fds =>
      let totalSize := fds.foldl
        (fun acc f =>
          if strEndsWithAny (lowerStr f.path) WEIGHT_EXTS then acc + f.size else acc) 0
      if totalSize ≤ 0 then none else some (totalSize / 2)

/-- Python truthiness of `Optional[int]` (`None` and `0` are falsy). -/
def truthyOptInt : Option Int → Bool
  | none => false
  | some n => n ≠ 0

/-- `ParamEstimate` (the derived `_b` float fields are omitted; the claims are
about the integer counts). -/
structure ParamEstimate where
  total_params : Option Int
  active_params : Option Int
  source : String
  dtype_breakdown : Option (List (String × Int))
  is_moe : Bool
  experts : String
deriving DecidableEq, Repr

/-- `estimate_parameters`: the three-step cascade. The network results are
inputs: `meta` is the safetensors per-dtype parameter count (`none` when the
lookup raised), `cfg` the parsed `config.json`/`params.json` (`none` when
absent), `file_details` the file listing. `prefer_meta` is
`config.PARAMS_PREFER_SAFETENSORS_META` (default `true`). -/
def estimate_parameters (prefer_meta : Bool) (meta : Option (List (String × Int)))
    (cfg : Option Cfg) (file_details : Option (List FileDetail)) : ParamEstimate :=
  -- 1) exact total from safetensors metadata
  let (totalParams0, dtypeBreakdown, source0) :=
    if prefer_meta then
      match meta with
      | some bd =>
          let t : Option Int := if bd.isEmpty then none else some (bd.foldl (fun a kv => a + kv.2) 0)
          (t, some bd, if truthyOptInt t then "safetensors_metadata" else "unknown")
      | none => (none, none, "unknown")
    else (none, none, "unknown")
  -- 2) config heuristic: active, and total fallback when metadata missing
  let (totalParams1, activeParams1, isMoe, expertsStr, source1) :=
    match cfg with
    | some c =>
        let r := heuristic_params_from_config c
        let active := if truthyOptInt r.active then r.active else none
        if ¬ truthyOptInt totalParams0 ∧ truthyOptInt r.total then
          (r.total, active, r.is_moe, r.experts, "config_heuristic")
        else
          (totalParams0, active, r.is_moe, r.experts, source0)
    | none => (totalParams0, none, false, "Unknown", source0)
  -- 3) filesize fallback
  let (totalParams2, source2) :=
    if ¬ truthyOptInt totalParams1 then
      match estimate_from_filesize file_details with
      | some fs => if fs ≠ 0 then (some fs, "filesize_fallback") else (totalParams1, source1)
      | none => (totalParams1, source1)
    else (totalParams1, source1)
  -- 4) dense/unknown: active defaults to total
  let activeParams2 :=
    if ¬ truthyOptInt activeParams1 ∧ truthyOptInt totalParams2 then totalParams2
    else activeParams1
  ⟨totalParams2, activeParams2, source2, dtypeBreakdown, isMoe, expertsStr⟩

/-- Sanity conditions on a parsed config under which the parameter-estimate
invariant holds: positive dimensions, nonnegative dense/MoE layer split and
shared-expert count, and an experts-per-token figure between 1 and the expert
count. -/
def CfgSane (c : Cfg) : Prop :=
  0 < vocabVal c ∧
  (∀ h ∈ hiddenVal c, 0 < h) ∧
  (∀ i ∈ interVal c, 0 < i) ∧
  (∀ L ∈ layersVal c, 0 < L ∧ 0 ≤ (denseMoeCounts c L).1 ∧ 0 ≤ (denseMoeCounts c L).2) ∧
  1 ≤ (detect_moe c).experts_per_tok ∧
  (detect_moe c).experts_per_tok ≤ (detect_moe c).num_experts ∧
  0 ≤ (detect_moe c).shared_experts

instance (c : Cfg) : Decidable (CfgSane c) := by
  unfold CfgSane; infer_instance

/-- On a sane config the heuristic either fails entirely or produces
`0 < active ≤ total`, with equality whenever it did not flag MoE. -/
theorem heuristic_sane_bounds (c : Cfg) (hc : CfgSane c) :
    (heuristic_params_from_config c).total = none ∧
      (heuristic_params_from_config c).active = none ∨
    ∃ t a, (heuristic_params_from_config c).total = some t ∧
      (heuristic_params_from_config c).active = some a ∧
      0 < a ∧ a ≤ t ∧ ((heuristic_params_from_config c).is_moe = false → a = t) := by
  obtain ⟨hv, hh, hi, hL, he1, he2, he3⟩ := hc
  cases hhid : hiddenVal c with
  | none => left; simp [heuristic_params_from_config, hhid]
  | some h =>
    cases hlay : layersVal c with
    | none => left; simp [heuristic_params_from_config, hhid, hlay]
    | some L =>
      cases hint : interVal c with
      | none => left; simp [heuristic_params_from_config, hhid, hlay, hint]
      | some i =>
        right
        have hh' : 0 < h := hh h (by simp [hhid])
        have hi' : 0 < i := hi i (by simp [hint])
        obtain ⟨hL', hdc, hmc⟩ := hL L (by simp [hlay])
        rcases hdm : denseMoeCounts c L with ⟨dc, mc⟩
        rw [hdm] at hdc hmc
        simp only at hdc hmc
        refine ⟨vocabVal c * h + L * (4 * (h * h)) + dc * (3 * h * i) +
            mc * (((detect_moe c).num_experts + (detect_moe c).shared_experts) * (3 * h * i)),
          vocabVal c * h + L * (4 * (h * h)) + dc * (3 * h * i) +
            mc * (((detect_moe c).experts_per_tok + (detect_moe c).shared_experts) * (3 * h * i)),
          ?_, ?_, ?_, ?_, ?_⟩
        · simp [heuristic_params_from_config, hhid, hlay, hint, hdm]
        · simp [heuristic_params_from_config, hhid, hlay, hint, hdm]
        · have hmlp : 0 < 3 * h * i := by positivity
          nlinarith [mul_nonneg hdc (le_of_lt hmlp),
            mul_nonneg hmc (mul_nonneg (by linarith : (0:Int) ≤
              (detect_moe c).experts_per_tok + (detect_moe c).shared_experts) (le_of_lt hmlp)),
            mul_pos hv hh', mul_pos hL' (by positivity : (0:Int) < 4 * (h * h))]
        · have hmlp : (0:Int) ≤ 3 * h * i := by positivity
          nlinarith [mul_nonneg hmc (mul_nonneg (by linarith : (0:Int) ≤
            (detect_moe c).num_experts - (detect_moe c).experts_per_tok) hmlp)]
        · intro hmoe
          simp only [heuristic_params_from_config, hhid, hlay, hint, hdm] at hmoe
          have hform : (detect_moe c).is_moe =
              (decide (1 < (detect_moe c).num_experts)
                || strHas "mixture-of-experts".toList (lowerChars (jdumps (.obj c)).toList)
                || strHas "moe".toList (lowerChars (jdumps (.obj c)).toList)) := rfl
          rw [hform] at hmoe
          have : ¬ (1 < (detect_moe c).num_experts) := by
            simp only [Bool.or_eq_false_iff, decide_eq_false_iff_not] at hmoe
            exact hmoe.1.1
          have : (detect_moe c).experts_per_tok = (detect_moe c).num_experts := by omega
          rw [this]

/-! ### `run_stats.py` / `main.apply_dynamic_blacklist` -/

/-- A per-uploader skip-reason histogram (`collections.Counter` snapshot:
distinct keys with their counts). -/
abbrev Counter := List (String × Nat)

/-- `counter.get(reason, 0)`. -/
def counterGet (c : Counter) (r : String) : Nat :=
  match c.find? (fun kv => kv.1 = r) with
  | some kv => kv.2
  | none => 0

/-- `max(counter.values())`, as computed over a nonempty counter (the 0 seed is
absorbed because counts are nonnegative). -/
def maxCounter (c : Counter) : Nat := (c.map (fun kv => kv.2)).foldr max 0

theorem le_maxCounter {c : Counter} {rv : String × Nat} (h : rv ∈ c) :
    rv.2 ≤ maxCounter c := by
  induction c with
  | nil => cases h
  | cons hd tl ih =>
      rcases List.mem_cons.mp h with rfl | h
      · simp only [maxCounter, List.map_cons, List.foldr_cons]
        exact le_max_left _ _
      · simp only [maxCounter, List.map_cons, List.foldr_cons]
        exact le_trans (ih h) (le_max_right _ _)

theorem maxCounter_le {c : Counter} {k : Nat} (h : ∀ rv ∈ c, rv.2 ≤ k) :
    maxCounter c ≤ k := by
  induction c with
  | nil => simp [maxCounter]
  | cons hd tl ih =>
      simp only [maxCounter, List.map_cons, List.foldr_cons, max_le_iff]
      exact ⟨h hd (by simp), ih (fun rv hrv => h rv (by simp [hrv]))⟩

/-- The documentation-absence skip reason driving the learner. -/
def NO_README_REASON : String := "skip:no_readme"

/-- The per-uploader promotion test of `apply_dynamic_blacklist`: threshold on
the `skip:no_readme` count, the count must equal the top count of the
uploader's histogram, and the normalized namespace must be nonempty and on
neither the (combined) allow-list nor the static deny-list. -/
def topCount (c : Counter) : Nat := if c.isEmpty then 0 else maxCounter c

def promotes (wl bl : List String) (threshold : Nat) (uploader : String)
    (counter : Counter) : Bool :=
  let count := counterGet counter NO_README_REASON
  if count < threshold then false
  else if count ≠ topCount counter then false
  else
    let normalized := normalize_namespace uploader
    if normalized = "" then false
    else if normalized ∈ wl ∨ normalized ∈ bl then false
    else true

/-- The namespaces `apply_dynamic_blacklist` adds to the learned deny-list this
run, from the `skip_reasons_by_uploader` snapshot (`wl` is the combined
allow-list snapshot, `bl` the static deny-list snapshot). -/
def promotedNamespaces (stats : List (String × Counter)) (wl bl : List String)
    (threshold : Nat) : List String :=
  ((stats.filter (fun uc => promotes wl bl threshold uc.1 uc.2)).map
    (fun uc => normalize_namespace uc.1)).dedup

theorem counterGet_pos_find {c : Counter} {r : String}
    (h : 1 ≤ counterGet c r) :
    ∃ kv ∈ c, kv.1 = r ∧ kv.2 = counterGet c r := by
  cases hf : c.find? (fun kv => kv.1 = r) with
  | none => simp [counterGet, hf] at h
  | some kv =>
      refine ⟨kv, List.mem_of_find?_eq_some hf, ?_, by simp [counterGet, hf]⟩
      have := List.find?_some hf
      simpa using this

theorem counter_not_empty {c : Counter} (h : 1 ≤ counterGet c NO_README_REASON) :
    c.isEmpty = false := by
  obtain ⟨kv, hkv, -⟩ := counterGet_pos_find h
  cases c with
  | nil => cases hkv
  | cons _ _ => rfl

/-- Characterization of the per-uploader promotion test: for a positive
threshold, `promotes` holds iff the `skip:no_readme` count reaches the
threshold, no other reason is strictly more frequent, and the normalized
namespace is nonempty and off both exclusion lists. -/
theorem promotes_iff (wl bl : List String) (threshold : Nat) (h1 : 1 ≤ threshold)
    (u : String) (c : Counter) :
    promotes wl bl threshold u c = true ↔
      threshold ≤ counterGet c NO_README_REASON ∧
      (∀ rv ∈ c, rv.2 ≤ counterGet c NO_README_REASON) ∧
      normalize_namespace u ≠ "" ∧
      normalize_namespace u ∉ wl ∧ normalize_namespace u ∉ bl := by
  unfold promotes
  dsimp only
  split_ifs with hlt hne hemp hmem
  · simp only [Bool.false_eq_true, false_iff]
    rintro ⟨hth, -⟩; omega
  · simp only [Bool.false_eq_true, false_iff]
    rintro ⟨hth, hall, -⟩
    have hcnt1 : 1 ≤ counterGet c NO_README_REASON := le_trans h1 hth
    obtain ⟨kv, hkv, -, hkv2⟩ := counterGet_pos_find hcnt1
    have hnone := counter_not_empty hcnt1
    rw [topCount, hnone] at hne
    simp only [Bool.false_eq_true, if_false] at hne
    exact hne (le_antisymm (hkv2 ▸ le_maxCounter hkv) (maxCounter_le hall))
  · simp only [Bool.false_eq_true, false_iff]
    rintro ⟨-, -, hnem, -⟩; exact hnem hemp
  · simp only [Bool.false_eq_true, false_iff]
    rintro ⟨-, -, -, hw, hb⟩
    rcases hmem with hm | hm
    · exact hw hm
    · exact hb hm
  · simp only [true_iff]
    refine ⟨by omega, ?_, hemp, fun hw => hmem (Or.inl hw), fun hb => hmem (Or.inr hb)⟩
    intro rv hrv
    have hcnt1 : 1 ≤ counterGet c NO_README_REASON := by omega
    have hnone := counter_not_empty hcnt1
    rw [not_ne_iff, topCount, hnone] at hne
    simp only [Bool.false_eq_true, if_false] at hne
    exact hne ▸ le_maxCounter hrv

/-- Membership in the set of namespaces promoted by `apply_dynamic_blacklist`
(proof body of the C3 amended claim, stated below over the same definitions). -/
theorem promoted_namespaces_iff (stats : List (String × Counter))
    (rawDynWL : List String) (threshold : Nat) (h1 : 1 ≤ threshold) (n : String) :
    n ∈ promotedNamespaces stats (combinedWhitelist rawDynWL) BASE_BLACKLIST threshold ↔
      ∃ u c, (u, c) ∈ stats ∧ normalize_namespace u = n ∧ n ≠ "" ∧
        threshold ≤ counterGet c NO_README_REASON ∧
        (∀ rv ∈ c, rv.2 ≤ counterGet c NO_README_REASON) ∧
        n ∉ combinedWhitelist rawDynWL ∧ n ∉ BASE_BLACKLIST := by
  unfold promotedNamespaces
  rw [List.mem_dedup, List.mem_map]
  constructor
  · rintro ⟨⟨u, c⟩, huc, hn⟩
    rw [List.mem_filter] at huc
    obtain ⟨hmem, hp⟩ := huc
    rw [promotes_iff _ _ _ h1] at hp
    obtain ⟨hth, hall, hnem, hw, hb⟩ := hp
    exact ⟨u, c, hmem, hn, hn ▸ hnem, hth, hall, hn ▸ hw, hn ▸ hb⟩
  · rintro ⟨u, c, hmem, hn, hnem, hth, hall, hw, hb⟩
    refine ⟨⟨u, c⟩, ?_, hn⟩
    rw [List.mem_filter]
    refine ⟨hmem, ?_⟩
    rw [promotes_iff _ _ _ h1]
    exact ⟨hth, hall, hn ▸ hnem, hn ▸ hw, hn ▸ hb⟩

/-! ### `model_filters.py` -/

/-- ASCII regex word character (`\w`; the identifiers and READMEs the gates
match against are ASCII where it matters). -/
def isWordChar (c : Char) : Bool :=
  ('a' ≤ c && c ≤ 'z') || ('A' ≤ c && c ≤ 'Z') || ('0' ≤ c && c ≤ '9') || c = '_'

def isDigitChar (c : Char) : Bool := '0' ≤ c && c ≤ '9'

def isLowerAlnum (c : Char) : Bool := ('a' ≤ c && c ≤ 'z') || isDigitChar c

/-- `\b tok \b` search for an all-word-character token over lower-cased text:
some occurrence of `tok` is preceded by start/non-word and followed by
end/non-word. `prevWord` tracks whether the previous character was a word
character. -/
def boundaryTokAux (tok : List Char) (prevWord : Bool) : List Char → Bool
  | [] => false
  | c :: cs =>
      (!prevWord && strStarts tok (c :: cs) &&
        (match List.drop tok.length (c :: cs) with
         | [] => true
         | d :: _ => !isWordChar d))
      || boundaryTokAux tok (isWordChar c) cs

def boundaryTok (tok : String) (text : List Char) : Bool :=
  boundaryTokAux tok.toList false text

def ROBOTICS_KEYWORDS_SUBSTRING : List String :=
  ["robot", "robotics", "robotik", "roboter",
   "reinforcement learning", "reinforcement-learning", "sim2real", "lidar", "slam",
   "openvla", "lerobot", "panda-reach", "pandareach",
   "gym-robotics", "pybullet", "mujoco", "isaacgym"]

/-- The short-token regex patterns `\brl\b`, `\bros2\b`, `\bros\b` with their
human-readable labels. -/
def ROBOTICS_KEYWORDS_REGEX : List (String × String) :=
  [("rl", "rl"), ("ros2", "ros2"), ("ros", "ros")]

def ROBOTICS_PIPELINES : List String := ["reinforcement-learning"]

def VISUAL_KEYWORDS : List String :=
  ["diffusion", "stable diffusion", "flux", "gan", "text-to-image",
   "image-to-image", "text-to-video", "inpainting", "super resolution",
   "controlnet", "lora", "unet", "vae", "diffusers"]

def VISUAL_PIPELINES : List String :=
  ["text-to-image", "image-to-text", "image-to-image",
   "text-to-video", "video-to-text", "unconditional-image-generation",
   "diffusers", "controlnet"]

/-- Model metadata visible to the filter gates (HF `ModelInfo` attributes
actually read by the embedded functions). -/
structure ModelInfo where
  modelId : String
  pipeline_tag : String
  tags : List String
deriving DecidableEq, Repr

def get_pipeline_tag (mi : ModelInfo) : String := mi.pipeline_tag

def is_generative_visual (mi : ModelInfo) (tags : List String) : Bool :=
  let pipeline := get_pipeline_tag mi
  if pipeline ∈ VISUAL_PIPELINES then true
  else
    let tagset := tags.map lowerStr
    if VISUAL_KEYWORDS.any (fun k => k ∈ tagset) then true
    else
      let mid := lowerChars mi.modelId.toList
      strHas "diffusion".toList mid || strHas "flux".toList mid || strHas "lora".toList mid

def is_excluded_content (_model_id : String) (tags : List String) : Bool :=
  "nsfw" ∈ tags.map lowerStr

/-- `_check_robotics_keywords` over free text (substring keywords, then the
word-boundary regex tokens), returning the matched keyword/label. -/
def check_robotics_keywords (text : String) : Option String :=
  let tl := lowerChars text.toList
  match ROBOTICS_KEYWORDS_SUBSTRING.find? (fun k => strHas k.toList tl) with
  | some k => some k
  | none => (ROBOTICS_KEYWORDS_REGEX.find? (fun p => boundaryTok p.1 tl)).map (fun p => p.2)

/-- `_check_robotics_tag`: exact match against the substring keywords plus the
word-boundary regex tokens. -/
def check_robotics_tag (tag : String) : Option String :=
  let tl := lowerStr tag
  if tl ∈ ROBOTICS_KEYWORDS_SUBSTRING then some tl
  else (ROBOTICS_KEYWORDS_REGEX.find? (fun p => boundaryTok p.1 tl.toList)).map (fun p => p.2)

def is_robotics_but_keep_vqa (mi : ModelInfo) (tags : List String)
    (readme_text : String) : Bool :=
  let pipeline := get_pipeline_tag mi
  if pipeline ∈ ["visual-question-answering", "image-text-to-text"] then false
  else if pipeline ∈ ROBOTICS_PIPELINES then true
  else if tags.any (fun t => (check_robotics_tag t).isSome) then true
  else if readme_text ≠ "" then (check_robotics_keywords readme_text).isSome
  else false

/-- `($|[-_])` boundary after a quant-pattern body. -/
def afterDelim : List Char → Bool
  | [] => true
  | c :: _ => c = '-' || c = '_'

/-- A fixed token followed by the boundary (`(TOK1|TOK2|…)($|[-_])`). -/
def tokThenDelim (toks : List String) (s : List Char) : Bool :=
  toks.any (fun t => strStarts t.toList s && afterDelim (List.drop t.length s))

/-- `[K0-9A-Z]+($|[-_])` (lower-cased): one or more alphanumerics with some
cut point followed by the boundary. -/
def alnumPlusThenDelim : List Char → Bool
  | [] => false
  | c :: cs => isLowerAlnum c && (afterDelim cs || alnumPlusThenDelim cs)

/-- `(Q\d_[K0-9A-Z]+|Q\d)($|[-_])` at a position (lower-cased). -/
def quantP2At : List Char → Bool
  | c1 :: c2 :: rest =>
      c1 = 'q' && isDigitChar c2 &&
        (afterDelim rest ||
          (match rest with
           | u :: r2 => u = '_' && alnumPlusThenDelim r2
           | [] => false))
  | _ => false

/-- `(\d+bit)($|[-_])` at a position. -/
def quantP4At : List Char → Bool
  | [] => false
  | c :: cs =>
      isDigitChar c &&
        ((strStarts "bit".toList cs && afterDelim (List.drop 3 cs)) || quantP4At cs)

/-- `((I|T)Q\d(_[A-Z0-9]+)*)($|[-_])` at a position. Because `_` itself
satisfies the trailing boundary, the optional `(_[A-Z0-9]+)*` groups never
extend the set of matches, so the test reduces to the `(I|T)Q\d` head plus the
boundary. -/
def quantP6At : List Char → Bool
  | c1 :: c2 :: c3 :: rest =>
      (c1 = 'i' || c1 = 't') && c2 = 'q' && isDigitChar c3 && afterDelim rest
  | _ => false

/-- `(Q[2-8](_K(_(XXS|XS|S|M|L|XL))?|_[01]))($|[-_])` at a position. As the
optional `_K` extension starts with `_`, which already satisfies the trailing
boundary, the test reduces to `Q[2-8]_K` or `Q[2-8]_[01]` plus the boundary. -/
def quantP7At : List Char → Bool
  | c1 :: c2 :: u :: x :: rest =>
      c1 = 'q' && ('2' ≤ c2 && c2 ≤ '8') && u = '_' &&
        ((x = 'k' || x = '0' || x = '1') && afterDelim rest)
  | _ => false

/-- The body alternatives of `QUANT_NAME_PATTERNS` tested at one position of
the lower-cased identifier. -/
def quantBodyAt (s : List Char) : Bool :=
  tokThenDelim ["gguf", "ggml", "awq", "gptq", "exl2", "onnx"] s ||
  quantP2At s ||
  tokThenDelim ["int4", "int8", "fp16", "bf16"] s ||
  quantP4At s ||
  tokThenDelim ["hqq", "quip", "squeeze"] s ||
  quantP6At s ||
  quantP7At s ||
  tokThenDelim ["bf16", "fp8", "fp16"] s

/-- `re.search` driver for `QUANT_NAME_PATTERNS`: the `(^|[-_])` lead-in means
a body may start at the beginning or right after `-`/`_`. -/
def quantScan (startOk : Bool) : List Char → Bool
  | [] => false
  | c :: cs => (startOk && quantBodyAt (c :: cs)) || quantScan (c = '-' || c = '_') cs

def has_quant_in_name (model_id : String) : Bool :=
  quantScan true (lowerChars model_id.toList)

def is_export_or_conversion (model_id : String) (tags : List String)
    (_file_details : Option (List FileDetail)) : Bool :=
  let tagset := tags.map lowerStr
  if "gguf" ∈ tagset || "onnx" ∈ tagset || "gptq" ∈ tagset || "awq" ∈ tagset then true
  else has_quant_in_name model_id

def has_external_links (readme : String) : Bool :=
  readme ≠ "" && strHas "http".toList readme.toList

def is_boilerplate_readme (readme : String) : Bool :=
  if readme = "" then true
  else
    let txt := stripWs (lowerChars readme.toList)
    if txt.length < 100 then true
    else if strHas "upload".toList txt && txt.length < 200 then true
    else false

def has_more_info_needed (readme : String) : Bool :=
  readme ≠ "" && strHas "more information needed".toList (lowerChars readme.toList)

def is_roleplay (_model_id : String) (tags : List String) : Bool :=
  let tagset := tags.map lowerStr
  "roleplay" ∈ tagset || "rp" ∈ tagset

def is_empty_or_stub_readme (readme : String) : Bool :=
  if readme = "" then true
  else
    let txt := stripWs (lowerChars readme.toList)
    if txt.length < 50 then true
    else if txt.length < 100 &&
        ["upload", "update", "model", "test"].any (fun s => strHas s.toList txt) then true
    else false

def is_merge (model_id : String) (readme : String) : Bool :=
  let mid := lowerChars model_id.toList
  let txt := lowerChars readme.toList
  if strHas "merge".toList mid && strHas "kit".toList mid then true
  else if strHas "merged model".toList txt || strHas "mergekit".toList txt then true
  else false

/-- `compute_info_score` (the YAML front matter is modelled by its key set). -/
def compute_info_score (readme : String) (yamlKeys : List String)
    (_tags : List String) (links_present : Bool) : Nat :=
  if readme = "" then 0
  else
    let txt := lowerChars readme.toList
    (if 500 < txt.length then 1 else 0) +
    (if 2000 < txt.length then 1 else 0) +
    (if "license" ∈ yamlKeys then 1 else 0) +
    (if "base_model" ∈ yamlKeys || strHas "base_model".toList txt then 1 else 0) +
    (if "dataset" ∈ yamlKeys || strHas "dataset".toList txt then 1 else 0) +
    (if links_present then 1 else 0)

def UNSLOTH_TEMPLATE_MARKERS : List String :=
  ["this llama model was trained 2x faster with unsloth",
   "trained 2x faster with unsloth",
   "uploaded model",
   "finetuned from model"]

def is_unsloth_template_finetune (readme : String) (tags : List String) : Bool :=
  let txt := lowerChars readme.toList
  if UNSLOTH_TEMPLATE_MARKERS.any (fun m => strHas m.toList txt) then true
  else
    let tagset := tags.map lowerStr
    "unsloth" ∈ tagset &&
      (strHas "uploaded model".toList txt || strHas "finetuned from model".toList txt)

/-- Characters at which `str.splitlines` breaks that `.` can still match
(`.` excludes `\n`; `\r`, vertical tab and form feed remain). -/
def isSplitlineChar (c : Char) : Bool :=
  c.toNat = 13 || c.toNat = 11 || c.toNat = 12 || c.toNat = 28 || c.toNat = 29 || c.toNat = 30

/-- Suffix of `FINETUNED_FROM_RE` after the literal: `\s*:?\s*(.+)` with the
greedy whitespace skip; the degenerate whitespace-only tail (on which the
Python line extraction would raise and the candidate would be recorded as an
exceptional skip) is modelled as no match. -/
def finetunedSuffix (rest : List Char) : Option (List Char) :=
  let r1 := rest.dropWhile (fun c => isWs c)
  let r2 := match r1 with
            | c :: cs => if c.toNat = 58 then cs else r1
            | [] => r1
  let r3 := r2.dropWhile (fun c => isWs c)
  let cap := r3.takeWhile (fun c => c.toNat ≠ 10)
  if cap.isEmpty then none else some cap

/-- `FINETUNED_FROM_RE.search` (case-insensitive literal then suffix), scanning
for the leftmost occurrence whose suffix matches. -/
def finetunedScan : List Char → Option (List Char)
  | [] => none
  | c :: cs =>
      if strStarts "finetuned from model".toList (lowerChars (c :: cs)) then
        match finetunedSuffix (List.drop 20 (c :: cs)) with
        | some cap => some cap
        | none => finetunedScan cs
      else finetunedScan cs

/-- `finetuned_from_model_line`: captured text, stripped, first split line,
stripped again. -/
def finetuned_from_model_line (readme : String) : Option String :=
  match finetunedScan readme.toList with
  | none => none
  | some cap =>
      let line := stripWs ((stripWs cap).takeWhile (fun c => ¬ isSplitlineChar c))
      if line.isEmpty then none else some (String.mk line)

def is_finetune_from_quant_base (readme : String) : Bool :=
  match finetuned_from_model_line readme with
  | none => false
  | some base =>
      let b := lowerChars base.toList
      ["bnb-4bit", "bnb-8bit", "gguf", "gptq", "awq", "int4", "int8", "4bit", "8bit",
        "exl2"].any (fun q => strHas q.toList b)

def is_blockassist_clone (model_id : String) (ns : Option String)
    (tags : List String) (readme_text : String) : Bool :=
  if model_id = "" then false
  else if ¬ strStarts "/blockassist".toList.reverse (lowerChars model_id.toList).reverse then
    false
  else
    let nsl := lowerStr (ns.getD "")
    if nsl = "gensyn" then false
    else
      let txt := lowerChars readme_text.toList
      let tagset := tags.map lowerStr
      if strHas "gensyn blockassist".toList txt then true
      else if strHas "assistancezero".toList txt then true
      else if "gensyn" ∈ tagset && "blockassist" ∈ tagset then true
      else false

/-! #### `compute_repo_signature` -/

/-- Python string comparison: lexicographic on code points. -/
def lexLe : List Char → List Char → Bool
  | [], _ => true
  | _ :: _, [] => false
  | a :: as, b :: bs => (a.toNat < b.toNat) || (a = b && lexLe as bs)

def pyStrLe (s t : String) : Bool := lexLe s.toList t.toList

theorem charEq_of_toNat {a b : Char} (h : a.toNat = b.toNat) : a = b :=
  Char.eq_of_val_eq (UInt32.ext h)

theorem lexLe_total : ∀ x y, lexLe x y || lexLe y x := by
  intro x
  induction x with
  | nil => intro y; simp [lexLe]
  | cons a as ih =>
      intro y
      cases y with
      | nil => simp [lexLe]
      | cons b bs =>
          by_cases hab : a = b
          · subst hab
            have htot := ih bs
            simp only [Bool.or_eq_true] at htot
            simp only [lexLe, Bool.or_eq_true, Bool.and_eq_true, decide_eq_true_eq]
            rcases htot with h | h
            · exact Or.inl (Or.inr ⟨trivial, h⟩)
            · exact Or.inr (Or.inr ⟨trivial, h⟩)
          · have hne : a.toNat ≠ b.toNat := fun h => hab (charEq_of_toNat h)
            have hba : ¬ b = a := fun h => hab h.symm
            simp only [lexLe, Bool.or_eq_true, Bool.and_eq_true, decide_eq_true_eq,
              hab, hba, false_and, or_false]
            omega

theorem lexLe_trans : ∀ x y z, lexLe x y → lexLe y z → lexLe x z := by
  intro x
  induction x with
  | nil => intro y z _ _; simp [lexLe]
  | cons a as ih =>
      intro y z hxy hyz
      cases y with
      | nil => simp [lexLe] at hxy
      | cons b bs =>
          cases z with
          | nil => simp [lexLe] at hyz
          | cons c cs =>
              simp only [lexLe, Bool.or_eq_true, Bool.and_eq_true, decide_eq_true_eq] at *
              rcases hxy with h1 | ⟨rfl, h1⟩ <;> rcases hyz with h2 | ⟨rfl, h2⟩
              · exact Or.inl (Nat.lt_trans h1 h2)
              · exact Or.inl h1
              · exact Or.inl h2
              · exact Or.inr ⟨rfl, ih _ _ h1 h2⟩

theorem lexLe_antisymm : ∀ x y, lexLe x y → lexLe y x → x = y := by
  intro x
  induction x with
  | nil =>
      intro y _ hyx
      cases y with
      | nil => rfl
      | cons b bs => simp [lexLe] at hyx
  | cons a as ih =>
      intro y hxy hyx
      cases y with
      | nil => simp [lexLe] at hxy
      | cons b bs =>
          simp only [lexLe, Bool.or_eq_true, Bool.and_eq_true, decide_eq_true_eq] at hxy hyx
          rcases hxy with h1 | ⟨rfl, h1⟩
          · rcases hyx with h2 | ⟨rfl, h2⟩
            · omega
            · omega
          · rcases hyx with h2 | ⟨-, h2⟩
            · omega
            · rw [ih _ h1 h2]

/-- `sorted(set(paths))`. -/
def sortedStrings (l : List String) : List String := l.dedup.mergeSort pyStrLe

instance : IsAntisymm String (fun a b => pyStrLe a b = true) :=
  ⟨fun a b h1 h2 => by
    have := lexLe_antisymm a.toList b.toList h1 h2
    cases a; cases b; simpa [pyStrLe] using congrArg String.mk this⟩

theorem sortedStrings_congr {l1 l2 : List String} (h : l1.toFinset = l2.toFinset) :
    sortedStrings l1 = sortedStrings l2 := by
  have hdf : ∀ (l : List String), l.dedup.toFinset = l.toFinset := by
    intro l; ext a; simp [List.mem_toFinset, List.mem_dedup]
  have hp : l1.dedup.Perm l2.dedup := by
    refine List.perm_of_nodup_nodup_toFinset_eq l1.nodup_dedup l2.nodup_dedup ?_
    rw [hdf, hdf, h]
  have hperm : (sortedStrings l1).Perm (sortedStrings l2) :=
    ((List.mergeSort_perm l1.dedup pyStrLe).trans hp).trans
      (List.mergeSort_perm l2.dedup pyStrLe).symm
  have htrans : ∀ a b c : String, pyStrLe a b = true → pyStrLe b c = true →
      pyStrLe a c = true := fun a b c => lexLe_trans a.toList b.toList c.toList
  have htotal : ∀ a b : String, (pyStrLe a b || pyStrLe b a) = true :=
    fun a b => lexLe_total a.toList b.toList
  exact @List.eq_of_perm_of_sorted String (fun a b => pyStrLe a b = true) _ _ _ hperm
    (@List.sorted_mergeSort String pyStrLe htrans htotal l1.dedup)
    (@List.sorted_mergeSort String pyStrLe htrans htotal l2.dedup)

/-- `WALLET_ADDR_RE = \b0x[a-fA-F0-9]{40}\b` masking. -/
def isHexDigit (c : Char) : Bool :=
  isDigitChar c || ('a' ≤ c && c ≤ 'f') || ('A' ≤ c && c ≤ 'F')

/-- Consume exactly `n` hex digits, returning the remainder. -/
def hexTake : Nat → List Char → Option (List Char)
  | 0, l => some l
  | _ + 1, [] => none
  | n + 1, c :: cs => if isHexDigit c then hexTake n cs else none

/-- Attempt `0x[hex]{40}\b` at the current position (the leading `\b` is the
caller's responsibility); returns the remainder after the 42 matched
characters. -/
def walletMatchAt : List Char → Option (List Char)
  | c1 :: c2 :: rest =>
      if c1 = '0' && c2 = 'x' then
        match hexTake 40 rest with
        | some r =>
            match r with
            | [] => some []
            | d :: _ => if isWordChar d then none else some r
        | none => none
      else none
  | _ => none

theorem hexTake_length : ∀ (n : Nat) (l r : List Char), hexTake n l = some r →
    r.length + n = l.length := by
  intro n
  induction n with
  | zero => intro l r h; simp [hexTake] at h; subst h; rfl
  | succ m ih =>
      intro l r h
      cases l with
      | nil => simp [hexTake] at h
      | cons c cs =>
          simp only [hexTake] at h
          split at h
          · have := ih cs r h
            simp [List.length_cons]; omega
          · cases h

theorem walletMatchAt_length {s r : List Char} (h : walletMatchAt s = some r) :
    r.length < s.length := by
  match s with
  | [] => simp [walletMatchAt] at h
  | [c] => simp [walletMatchAt] at h
  | c1 :: c2 :: rest =>
      simp only [walletMatchAt] at h
      split at h
      · cases hx : hexTake 40 rest with
        | none => rw [hx] at h; cases h
        | some r0 =>
            rw [hx] at h
            have hlen := hexTake_length 40 rest r0 hx
            cases r0 with
            | nil => simp at h; subst h; simp [List.length_cons]
            | cons d ds =>
                simp only at h
                split at h
                · cases h
                · cases h; simp [List.length_cons] at hlen ⊢; omega
      · cases h

/-- `WALLET_ADDR_RE.sub("0x<ADDR>", txt)`: left-to-right non-overlapping scan;
`prevWord` tracks whether the preceding character of the original text is a
word character (the `\b` context). -/
def maskWalletAux (prevWord : Bool) : List Char → List Char
  | [] => []
  | c :: cs =>
      if prevWord then c :: maskWalletAux (isWordChar c) cs
      else
        match h : walletMatchAt (c :: cs) with
        | some r => "0x<ADDR>".toList ++ maskWalletAux true r
        | none => c :: maskWalletAux (isWordChar c) cs
termination_by l => l.length
decreasing_by
  · simp [List.length_cons]
  · exact walletMatchAt_length h
  · simp [List.length_cons]

def strEndsWith (suf : String) (l : List Char) : Bool :=
  strStarts suf.toList.reverse l.reverse

/-- The path list that feeds the signature's file part: stripped, lower-cased,
nonempty, non-README paths (in listing order, before dedup and sort). -/
def sigPaths (fds : List FileDetail) : List String :=
  fds.filterMap (fun f =>
    let p := lowerChars (stripWs f.path.toList)
    if p.isEmpty then none
    else if strEndsWith "readme.md" p || strEndsWith "modelcard.md" p then none
    else some (String.mk p))

/-- `compute_repo_signature`. The SHA-1 digest is a deterministic function of
the bytes fed to it, and the pipeline only ever derives signature equality
from pre-image equality, so the hash is modelled by its pre-image
`txt ++ "\n---\n" ++ files_part`. -/
def compute_repo_signature (readme_text : String)
    (file_details : Option (List FileDetail)) : String :=
  let txt := maskWalletAux false readme_text.toList
  let txt := lowerChars (collapseWs txt)
  let txt := txt.take 20000
  let filesPart :=
    match file_details with
    | some fds => String.intercalate "|" ((sortedStrings (sigPaths fds)).take 80)
    | none => ""
  String.mk txt ++ "\n---\n" ++ filesPart

/-- Duplicate-signature bookkeeping of the main loop (`seen_signatures`). -/
def getSig (seen : List (String × String)) (sig : String) : Option String :=
  (seen.find? (fun p => p.1 = sig)).map (fun p => p.2)

def setSig (seen : List (String × String)) (sig mid : String) :
    List (String × String) :=
  (sig, mid) :: seen.filter (fun p => p.1 ≠ sig)

/-- The duplicate-signature gate of the main loop: returns the canonical
identity when the candidate is skipped as a duplicate, plus the updated
`seen_signatures` map. -/
def sigGate (seen : List (String × String)) (model_id readme_text : String)
    (file_details : Option (List FileDetail)) :
    Option String × List (String × String) :=
  let sig := compute_repo_signature readme_text file_details
  match getSig seen sig with
  | some canon =>
      if canon ≠ model_id then (some canon, seen)
      else (none, setSig seen sig model_id)
  | none => (none, setSig seen sig model_id)

/-! ### `main.py` — per-candidate gate pipeline, author cache, evidence check -/

def SECURITY_WARN_ON_HF_SCAN_FLAGS : Bool := true
def SECURITY_WARN_ON_EXECUTABLES : Bool := true
def SECURITY_WARN_ON_SCRIPTS : Bool := false

def EXECUTABLE_EXTS : List String := [".exe", ".msi", ".bat", ".cmd", ".dll"]
def SCRIPT_EXTS : List String := [".sh", ".py", ".js", ".ps1", ".php", ".pl"]

/-- `security_warnings` (reason tokens only; the per-file extras do not affect
control flow). `FileDetail.securityStatus` models the effective scan status
read from `securityFileStatus`/`security`. -/
def securityWarnTokens (fds : Option (List FileDetail)) : List String :=
  match fds with
  | none => []
  | some l =>
      (l.map (fun f =>
        let low := lowerStr f.path
        let flagged := match f.securityStatus with
          | some s => s = "unsafe" || s = "malicious" || s = "infected"
          | none => false
        (if SECURITY_WARN_ON_HF_SCAN_FLAGS && flagged
          then ["warn:security_scan_flagged"] else []) ++
        (if SECURITY_WARN_ON_EXECUTABLES && strEndsWithAny low EXECUTABLE_EXTS
          then ["warn:executable_file_present"] else []) ++
        (if SECURITY_WARN_ON_SCRIPTS && strEndsWithAny low SCRIPT_EXTS
          then ["warn:script_file_present"] else []))).flatten

/-- `tree_has_readme`. -/
def tree_has_readme (fds : Option (List FileDetail)) : Bool :=
  match fds with
  | none => false
  | some l =>
      l.any (fun item =>
        let path := lowerChars (stripWs item.path.toList)
        if path.isEmpty then false
        else if strEndsWith "readme.md" path || strEndsWith "modelcard.md" path then true
        else strStarts "readme".toList ((path.reverse.takeWhile (fun c => c ≠ '/')).reverse))

/-- The owner namespace of a model identity. -/
def modelNamespace (model_id : String) : Option String :=
  if model_id.contains '/' then
    some (String.mk (model_id.toList.takeWhile (fun c => c ≠ '/')))
  else none

/-- The phase-0 filter trace: security warnings in file order, then the
generative-visual, nsfw and export/conversion deny tokens. -/
def phase0Trace (mi : ModelInfo) (fds : Option (List FileDetail)) : List String :=
  securityWarnTokens fds ++
  (if is_generative_visual mi mi.tags then ["skip:generative_visual"] else []) ++
  (if is_excluded_content mi.modelId mi.tags then ["skip:nsfw_excluded"] else []) ++
  (if is_export_or_conversion mi.modelId mi.tags fds then ["skip:export_conversion"] else [])

/-- The post-fetch deny chain (ordered as in the main loop), returning the
first denial's reason; `none` when every post-fetch gate up to the duplicate
gate passes. -/
def firstPostDenyReason (mi : ModelInfo) (_fds : Option (List FileDetail))
    (rc : String) (yamlKeys : List String) (is_whitelisted : Bool)
    (trust_tier : Int) : Option String :=
  if is_empty_or_stub_readme rc then some "skip:empty_readme"
  else if is_merge mi.modelId rc then some "skip:merge_model"
  else if is_robotics_but_keep_vqa mi mi.tags rc then some "skip:robotics_embodied"
  else if is_blockassist_clone mi.modelId (modelNamespace mi.modelId) mi.tags rc then
    some "skip:clone_of_canonical"
  else
    let links_present := has_external_links rc
    let info_score := compute_info_score rc yamlKeys mi.tags links_present
    let boiler := is_boilerplate_readme rc
    let more_info := has_more_info_needed rc
    let roleplay := is_roleplay mi.modelId mi.tags
    if ¬ is_whitelisted ∧ trust_tier ≤ 1 ∧ is_unsloth_template_finetune rc mi.tags then
      some "skip:template_finetune_unsloth"
    else if ¬ is_whitelisted ∧ trust_tier ≤ 1 ∧ is_finetune_from_quant_base rc then
      some "skip:finetune_from_quant_base"
    else if ¬ is_whitelisted ∧ trust_tier ≤ 1 ∧ roleplay then
      some "skip:roleplay_content"
    else if ¬ is_whitelisted ∧ trust_tier ≤ 1 ∧ (boiler || more_info) then
      some "skip:boilerplate_readme"
    else if ¬ is_whitelisted ∧ trust_tier ≤ 1 ∧ info_score < 3 ∧ ¬ links_present then
      some "skip:low_info_score"
    else if ¬ is_whitelisted ∧ 1 < trust_tier ∧ (boiler || more_info) then
      some "skip:boilerplate_readme"
    else none

/-- Per-candidate outcome of the filter gate chain. -/
inductive GateOutcome where
  | skip (reason : String) (trace : List String)
  | proceed (trace : List String)
deriving DecidableEq, Repr

/-- The per-candidate gate pipeline of the main loop (phase 0 through the
duplicate-signature gate). The fetched README is `none` when the fetch
returned nothing (falsy). Returns the outcome and the updated
`seen_signatures` map. -/
def processGates (mi : ModelInfo) (fds : Option (List FileDetail))
    (readme : Option String) (yamlKeys : List String) (is_whitelisted : Bool)
    (trust_tier : Int) (seen : List (String × String)) :
    GateOutcome × List (String × String) :=
  let trace := phase0Trace mi fds
  if "skip:nsfw_excluded" ∈ trace then (.skip "skip:nsfw_excluded" trace, seen)
  else if "skip:generative_visual" ∈ trace ∨ "skip:export_conversion" ∈ trace then
    (.skip (trace.headD "") trace, seen)
  else
    let rcOpt := match readme with
      | some r => if r = "" then none else some r
      | none => none
    match rcOpt with
    | none =>
        if tree_has_readme fds || fds.isNone then (.skip "skip:readme_fetch_failed" trace, seen)
        else (.skip "skip:no_readme" trace, seen)
    | some rc =>
        match firstPostDenyReason mi fds rc yamlKeys is_whitelisted trust_tier with
        | some r => (.skip r trace, seen)
        | none =>
            match sigGate seen mi.modelId rc fds with
            | (some _, seen') => (.skip "skip:duplicate_signature" trace, seen')
            | (none, seen') => (.proceed trace, seen')

/-! #### Author-identity cache (main loop, tri-state lookup) -/

/-- A tri-state external lookup result: determinate hit, determinate absence,
or indeterminate (network error). -/
inductive TriState (α : Type) where
  | found (a : α)
  | absent
  | indeterminate

structure UserOverview where
  numFollowers : Option Int
  isPro : Bool

/-- The cache-validity test of the main loop over the stored author row,
given the row's kind and its age in days (`(now - last_checked).days`):
`user`/`org` rows younger than 14 days are valid; `unknown` rows are
explicitly never valid. -/
def author_cache_valid (entry : Option (String × Int)) : Bool :=
  match entry with
  | none => false
  | some (kind, ageDays) =>
      let v := false
      let v := if (kind = "user" || kind = "org") && ageDays < 14 then true else v
      let v := if kind = "unknown" then false else v
      v

/-- Result of the author resolution step: the kind used this run, the kind
upserted into the author table (if any), and whether fresh org/user lookups
were issued. -/
structure AuthorOutcome where
  author_kind : String
  upsertKind : Option String
  lookupIssued : Bool
deriving DecidableEq, Repr

/-- The author resolution step of the main loop: use a valid cache row, else
issue the org lookup and, on determinate absence, the individual lookup;
determinate outcomes are upserted (a determinate double-negative as
kind `unknown`), indeterminate outcomes are never cached. -/
def resolveAuthor (entry : Option (String × Int)) (orgRes : TriState Unit)
    (userRes : TriState UserOverview) : AuthorOutcome :=
  if author_cache_valid entry then
    { author_kind := (entry.map Prod.fst).getD "unknown",
      upsertKind := none, lookupIssued := false }
  else
    match orgRes with
    | .found _ => ⟨"org", some "org", true⟩
    | .absent =>
        match userRes with
        | .found _ => ⟨"user", some "user", true⟩
        | .absent => ⟨"unknown", some "unknown", true⟩
        | .indeterminate => ⟨"unknown", none, true⟩
    | .indeterminate => ⟨"unknown", none, true⟩

/-! #### Evidence check (main loop, phase 3) -/

structure EvItem where
  quote : String
deriving DecidableEq, Repr

structure LlmResult where
  confidence : String
  evidence : List EvItem
deriving DecidableEq, Repr

/-- `_norm`: NFKC normalization (kept abstract as a parameter: it is an
external Unicode table), lower-casing, whitespace collapse. -/
def pynorm (nfkc : String → String) (s : String) : String :=
  String.mk (collapseWs (lowerChars (nfkc s).toList))

/-- Characters deleted by the third containment pass: `string.punctuation`
(ASCII 33–47, 58–64, 91–96, 123–126) plus the CJK punctuation listed in the
translation table. -/
def isPunctDeleted (c : Char) : Bool :=
  (33 ≤ c.toNat && c.toNat ≤ 47) || (58 ≤ c.toNat && c.toNat ≤ 64) ||
  (91 ≤ c.toNat && c.toNat ≤ 96) || (123 ≤ c.toNat && c.toNat ≤ 126) ||
  c.toNat ∈ [65292, 12290, 12289, 65306, 65307, 12300, 12301, 12302, 12303,
    65288, 65289]

/-- `quote_in_readme`: exact substring, then normalized containment, then
punctuation-stripped containment. -/
def quote_in_readme (nfkc : String → String) (quote readme : String) : Bool :=
  if quote = "" || readme = "" then false
  else if strHas quote.toList readme.toList then true
  else
    let q := pynorm nfkc quote
    let r := pynorm nfkc readme
    if strHas q.toList r.toList then true
    else
      strHas (q.toList.filter (fun c => !isPunctDeleted c))
        (r.toList.filter (fun c => !isPunctDeleted c))

/-- The evidence check of the main loop (`config.LLM_REQUIRE_EVIDENCE` as a
parameter): returns the adjusted result and the report notes. -/
def evidenceCheck (nfkc : String → String) (require_evidence : Bool)
    (result : LlmResult) (readme : String) : LlmResult × List String :=
  if require_evidence then
    match result.evidence with
    | [] => ({ result with confidence := "low" }, ["Evidence: Missing"])
    | _ :: _ =>
        let any_mismatch := result.evidence.any
          (fun item => item.quote ≠ "" && !quote_in_readme nfkc item.quote readme)
        if any_mismatch then ({ result with confidence := "low" }, ["Evidence: Mismatch"])
        else (result, ["Evidence: Passed"])
  else (result, [])

/-- A run-statistics snapshot where `skip:no_readme` is only TIED for the most
frequent skip reason of uploader `spamco`. -/
def cexTieStats : List (String × Counter) :=
  [("spamco", [("skip:no_readme", 20), ("skip:llm_error", 20)])]

/-- The counterexample configuration for the parameter-estimate invariant: a
config that supplies `num_experts_per_tok` without any expert count, so the
heuristic charges two experts per token against a one-expert total. -/
def cexParamCfg : Cfg :=
  [("hidden_size", .num 4), ("num_hidden_layers", .num 2),
   ("intermediate_size", .num 8), ("num_experts_per_tok", .num 2)]

end HFFeed

open HFFeed

/-- **C2 (amended).** When the safetensors-metadata step supplies no total and
every config the heuristic sees is sane (positive dimensions, nonnegative layer
split and shared experts, `1 ≤ experts_per_tok ≤ num_experts`), the estimate
satisfies `active ≤ total` whenever both are present, and `active = total`
whenever `is_moe` is false. -/
theorem estimate_params_invariant (pm : Bool) (cfg? : Option Cfg)
    (fds : Option (List FileDetail)) (hs : ∀ c ∈ cfg?, CfgSane c) :
    (∀ t a, (estimate_parameters pm none cfg? fds).total_params = some t →
      (estimate_parameters pm none cfg? fds).active_params = some a → a ≤ t) ∧
    (∀ t a, (estimate_parameters pm none cfg? fds).total_params = some t →
      (estimate_parameters pm none cfg? fds).active_params = some a →
      (estimate_parameters pm none cfg? fds).is_moe = false → a = t) := by
  cases cfg? with
  | none =>
      constructor <;>
      · intro t a ht ha
        cases hpm : pm <;>
        · cases hfs : estimate_from_filesize fds with
          | none => simp [estimate_parameters, hfs, truthyOptInt] at ht ha
          | some fs =>
              by_cases hfz : fs = 0
              · simp [estimate_parameters, hfs, hfz, truthyOptInt] at ht ha
              · simp [estimate_parameters, hfs, hfz, truthyOptInt] at ht ha
                omega
  | some c =>
      rcases heuristic_sane_bounds c (hs c rfl) with ⟨hrt, hra⟩ | ⟨t0, a0, hrt, hra, ha0, hle, heq⟩
      · constructor <;>
        · intro t a ht ha
          cases hpm : pm <;>
          · cases hfs : estimate_from_filesize fds with
            | none => simp [estimate_parameters, hfs, hrt, hra, truthyOptInt] at ht ha
            | some fs =>
                by_cases hfz : fs = 0
                · simp [estimate_parameters, hfs, hfz, hrt, hra, truthyOptInt] at ht ha
                · simp [estimate_parameters, hfs, hfz, hrt, hra, truthyOptInt] at ht ha
                  omega
      · have ha0' : a0 ≠ 0 := by omega
        have ht0' : t0 ≠ 0 := by omega
        have hE : estimate_parameters pm none (some c) fds =
            ⟨some t0, some a0, "config_heuristic", none,
              (heuristic_params_from_config c).is_moe,
              (heuristic_params_from_config c).experts⟩ := by
          cases pm <;>
            simp [estimate_parameters, hrt, hra, truthyOptInt, ha0', ht0']
        rw [hE]
        constructor
        · intro t a ht ha
          simp only [Option.some.injEq] at ht ha
          omega
        · intro t a ht ha hmoe
          simp only [Option.some.injEq] at ht ha
          have := heq hmoe
          omega

/-- **C2 counterexample.** On a config supplying `num_experts_per_tok: 2` with no
expert count, `estimate_parameters` (metadata absent) returns
`active_params = 128512 > total_params = 128320` while reporting `is_moe = false`:
the claimed invariant `active ≤ total` (and `is_moe = false → active = total`)
fails. -/
theorem estimate_params_invariant_cex :
    (estimate_parameters true none (some cexParamCfg) none).total_params = some 128320 ∧
    (estimate_parameters true none (some cexParamCfg) none).active_params = some 128512 ∧
    (estimate_parameters true none (some cexParamCfg) none).is_moe = false ∧
    ¬ (128512 : Int) ≤ 128320 := by
  refine ⟨?_, ?_, ?_, by omega⟩ <;> rfl

/-- **C3 counterexample.** With the default threshold 20, an uploader whose
`skip:no_readme` count merely TIES another reason's count (here
`skip:llm_error`, both 20) is still promoted to the learned deny-list — the
claim requires the documentation-absence reason to be strictly the single most
frequent, with ties not promoted. -/
theorem promote_tie_cex :
    counterGet [("skip:no_readme", 20), ("skip:llm_error", 20)] "skip:llm_error" =
      counterGet [("skip:no_readme", 20), ("skip:llm_error", 20)] NO_README_REASON ∧
    promotedNamespaces cexTieStats (combinedWhitelist []) BASE_BLACKLIST 20 =
      ["spamco"] := by
  constructor
  · rfl
  · rfl

/-- **C3 (amended).** A namespace is promoted to the learned deny-list exactly
when its `skip:no_readme` count reaches the threshold, no other skip reason is
strictly more frequent for it this run (ties with another reason still
promote), and its normalized form is nonempty and on neither the combined
allow-list nor the static deny-list. -/
theorem promotion_characterization (stats : List (String × Counter))
    (rawDynWL : List String) (threshold : Nat) (h1 : 1 ≤ threshold) (n : String) :
    n ∈ promotedNamespaces stats (combinedWhitelist rawDynWL) BASE_BLACKLIST threshold ↔
      ∃ u c, (u, c) ∈ stats ∧ normalize_namespace u = n ∧ n ≠ "" ∧
        threshold ≤ counterGet c NO_README_REASON ∧
        (∀ rv ∈ c, rv.2 ≤ counterGet c NO_README_REASON) ∧
        n ∉ combinedWhitelist rawDynWL ∧ n ∉ BASE_BLACKLIST :=
  promoted_namespaces_iff stats rawDynWL threshold h1 n

/-- Witness for the amended C3 theorem at the default threshold 20. -/
theorem promotion_characterization_witness :
    1 ≤ 20 ∧
    ("bulkspam" ∈ promotedNamespaces [("bulkspam", [(NO_README_REASON, 20)])]
        (combinedWhitelist []) BASE_BLACKLIST 20 ↔
      ∃ u c, (u, c) ∈ [("bulkspam", [(NO_README_REASON, 20)])] ∧
        normalize_namespace u = "bulkspam" ∧ "bulkspam" ≠ "" ∧
        20 ≤ counterGet c NO_README_REASON ∧
        (∀ rv ∈ c, rv.2 ≤ counterGet c NO_README_REASON) ∧
        "bulkspam" ∉ combinedWhitelist [] ∧ "bulkspam" ∉ BASE_BLACKLIST) :=
  ⟨by omega, promotion_characterization _ _ _ (by omega) _⟩

/-- A sane mixture-of-experts config used to witness the amended invariant. -/
def witParamCfg : Cfg :=
  [("hidden_size", .num 4), ("num_hidden_layers", .num 3),
   ("intermediate_size", .num 8), ("vocab_size", .num 100),
   ("num_experts", .num 4), ("num_experts_per_tok", .num 2),
   ("first_k_dense_replace", .num 1)]

/-- Witness for the amended C2 theorem at a concrete sane MoE config. -/
theorem estimate_params_invariant_witness :
    (∀ c ∈ some witParamCfg, CfgSane c) ∧
    (∀ t a, (estimate_parameters true none (some witParamCfg) none).total_params = some t →
      (estimate_parameters true none (some witParamCfg) none).active_params = some a →
      a ≤ t) :=
  ⟨by decide, (estimate_params_invariant true (some witParamCfg) none (by decide)).1⟩


/-- **C1.** A namespace whose normalized key is on the combined deny-list
(static ∪ learned) is always classified `deny_blacklist` — never an allow
decision — even when it is simultaneously on an allow-list (static ∪ learned),
for every state of the dynamic lists. -/
theorem classify_deny_wins (rawDynBL rawDynWL : List String) (ns : String)
    (hbl : normalize_namespace ns ∈ combinedBlacklist rawDynBL)
    (_hwl : normalize_namespace ns ∈ combinedWhitelist rawDynWL) :
    classify_namespace rawDynBL rawDynWL ns =
      ("deny_blacklist", some "skip:blacklisted_namespace") := by
  unfold classify_namespace
  simp [hbl]

/-- Witness for C1: `unsloth` is on the static deny-list; put it on the learned
allow-list as well — classification still denies. -/
theorem classify_deny_wins_witness :
    normalize_namespace "unsloth" ∈ combinedBlacklist [] ∧
    normalize_namespace "unsloth" ∈ combinedWhitelist ["unsloth"] ∧
    classify_namespace [] ["unsloth"] "unsloth" =
      ("deny_blacklist", some "skip:blacklisted_namespace") := by
  refine ⟨by decide, by decide, classify_deny_wins _ _ _ (by decide) (by decide)⟩

/-- **C8 counterexample.** A fresh (`age 0`) cached author row with
`kind = "unknown"` is treated as invalid, so the org lookup is re-issued on the
very next run — the cached negative does not prevent re-lookups while fresh. -/
theorem author_unknown_cache_cex :
    author_cache_valid (some ("unknown", 0)) = false ∧
    (resolveAuthor (some ("unknown", 0)) TriState.absent TriState.absent).lookupIssued
      = true :=
  ⟨rfl, rfl⟩

/-- **C8 (amended).** After a determinate double-negative lookup the author is
cached with `kind = unknown`, but an `unknown` cache row is never considered
valid: the lookup is re-issued on every subsequent run regardless of the row's
age. Only `user`/`org` rows younger than 14 days suppress new lookups (within
one run the in-memory `author_run_cache` additionally suppresses repeats). -/
theorem author_unknown_recached_and_retried
    (orgRes : TriState Unit) (userRes : TriState UserOverview) :
    (∀ entry, author_cache_valid entry = false →
      resolveAuthor entry TriState.absent TriState.absent =
        ⟨"unknown", some "unknown", true⟩) ∧
    (∀ age : Int, author_cache_valid (some ("unknown", age)) = false ∧
      (resolveAuthor (some ("unknown", age)) orgRes userRes).lookupIssued = true) ∧
    (∀ (kind : String) (age : Int), (kind = "user" ∨ kind = "org") → age < 14 →
      (resolveAuthor (some (kind, age)) orgRes userRes).lookupIssued = false) := by
  refine ⟨?_, ?_, ?_⟩
  · intro entry h
    simp [resolveAuthor, h]
  · intro age
    have hval : author_cache_valid (some ("unknown", age)) = false := by
      simp [author_cache_valid]
    refine ⟨hval, ?_⟩
    cases orgRes with
    | found a => simp [resolveAuthor, hval]
    | absent =>
        cases userRes <;> simp [resolveAuthor, hval]
    | indeterminate => simp [resolveAuthor, hval]
  · intro kind age hkind hage
    have hval : author_cache_valid (some (kind, age)) = true := by
      rcases hkind with rfl | rfl <;> simp [author_cache_valid, hage]
    simp [resolveAuthor, hval]

/-- Witness for the amended C8 theorem: a three-day-old `unknown` row still
triggers a lookup. -/
theorem author_unknown_recached_and_retried_witness :
    author_cache_valid (some ("unknown", (3 : Int))) = false ∧
    (resolveAuthor (some ("unknown", (3 : Int))) TriState.indeterminate
      TriState.indeterminate).lookupIssued = true :=
  (author_unknown_recached_and_retried TriState.indeterminate
    TriState.indeterminate).2.1 3

/-- Reduction of the evidence check on a non-empty evidence list. -/
theorem evidenceCheck_cons (nfkc : String → String) (conf : String)
    (readme : String) (e : EvItem) (es : List EvItem) :
    evidenceCheck nfkc true ⟨conf, e :: es⟩ readme =
      (if (e :: es).any
          (fun item => item.quote ≠ "" && !quote_in_readme nfkc item.quote readme)
       then (⟨"low", e :: es⟩, ["Evidence: Mismatch"])
       else (⟨conf, e :: es⟩, ["Evidence: Passed"])) := by
  simp only [evidenceCheck, if_true]

/-- **C9.** When evidence is required and the evidence list is non-empty but
every item's quote is empty (or missing, which the accessor defaults to
empty), the check passes: the confidence is left unchanged and the note is
`Evidence: Passed`. -/
theorem evidence_empty_quotes_pass (nfkc : String → String) (result : LlmResult)
    (readme : String) (hne : result.evidence ≠ [])
    (hq : ∀ item ∈ result.evidence, item.quote = "") :
    evidenceCheck nfkc true result readme = (result, ["Evidence: Passed"]) := by
  obtain ⟨conf, evs⟩ := result
  cases evs with
  | nil => simp at hne
  | cons e es =>
      rw [evidenceCheck_cons]
      have hany : (e :: es).any
          (fun item => item.quote ≠ "" && !quote_in_readme nfkc item.quote readme)
          = false := by
        rw [List.any_eq_false]
        intro item hitem
        simp [hq item hitem]
      rw [hany]
      simp

/-- Witness for C9 at a concrete result whose single evidence item has an empty
quote. -/
theorem evidence_empty_quotes_pass_witness :
    (([⟨""⟩] : List EvItem) ≠ []) ∧
    evidenceCheck id true ⟨"high", [⟨""⟩]⟩ "a model card" =
      (⟨"high", [⟨""⟩]⟩, ["Evidence: Passed"]) :=
  ⟨by decide,
    evidence_empty_quotes_pass id ⟨"high", [⟨""⟩]⟩ "a model card" (by decide) (by decide)⟩

/-- An evidence item whose quote occurs verbatim in the document never counts
as a mismatch. -/
theorem strHas_nil {pat : List Char} (h : strHas pat [] = true) : pat = [] := by
  cases pat with
  | nil => rfl
  | cons c cs => simp [strHas, strStarts] at h

theorem toList_nil_eq_empty {s : String} (h : s.toList = []) : s = "" := by
  cases s with
  | mk data =>
      simp only [String.toList] at h
      subst h
      rfl

theorem verbatim_item_no_mismatch (nfkc : String → String) {item : EvItem}
    {readme : String} (hq : strHas item.quote.toList readme.toList = true) :
    (item.quote ≠ "" && !quote_in_readme nfkc item.quote readme) = false := by
  by_cases hq0 : item.quote = ""
  · simp [hq0]
  · have hr : readme ≠ "" := by
      intro hr0
      subst hr0
      exact hq0 (toList_nil_eq_empty (strHas_nil hq))
    have hq' : strHas item.quote.data readme.data = true := hq
    simp [quote_in_readme, hq0, hr, hq']

/-- **C6 counterexample.** With evidence required, a result whose evidence
items remain but whose quote strings have all been removed (emptied) is NOT
downgraded: confidence stays `high`, contradicting "removing all quotes when
evidence is required always downgrades confidence to its lowest value". -/
theorem evidence_quote_removal_cex :
    (evidenceCheck id true ⟨"high", [⟨""⟩, ⟨""⟩]⟩ "the model card text").1.confidence
      = "high" ∧
    (evidenceCheck id true ⟨"high", [⟨""⟩, ⟨""⟩]⟩ "the model card text").2
      = ["Evidence: Passed"] ∧
    ("high" : String) ≠ "low" :=
  ⟨rfl, rfl, by decide⟩

/-- **C6 (amended).** Evidence validation is monotonic: adding an evidence item
whose quote is a verbatim substring of the source document never causes a
confidence downgrade (the downgrade notes `Evidence: Missing`/`Mismatch` can
only appear with the added item if one already appears without it); and when
evidence is required, a result whose evidence LIST is empty is always
downgraded to the lowest confidence — emptying the quote fields of surviving
items does not downgrade. -/
theorem evidence_monotonic (nfkc : String → String) (req : Bool) (conf : String)
    (readme : String) (l1 l2 : List EvItem) (item : EvItem)
    (hq : strHas item.quote.toList readme.toList = true) :
    ((evidenceCheck nfkc req ⟨conf, l1 ++ item :: l2⟩ readme).2 = ["Evidence: Missing"] ∨
      (evidenceCheck nfkc req ⟨conf, l1 ++ item :: l2⟩ readme).2 = ["Evidence: Mismatch"] →
      (evidenceCheck nfkc req ⟨conf, l1 ++ l2⟩ readme).2 = ["Evidence: Missing"] ∨
      (evidenceCheck nfkc req ⟨conf, l1 ++ l2⟩ readme).2 = ["Evidence: Mismatch"]) ∧
    (req = true →
      evidenceCheck nfkc req ⟨conf, []⟩ readme = (⟨"low", []⟩, ["Evidence: Missing"])) := by
  have hitem := verbatim_item_no_mismatch nfkc hq
  have hitem2 : (!decide (item.quote = "") && !quote_in_readme nfkc item.quote readme)
      = false := by simpa [ne_eq, decide_not] using hitem
  cases req with
  | false =>
      constructor
      · intro h
        simp [evidenceCheck] at h
      · intro h; cases h
  | true =>
      refine ⟨?_, fun _ => rfl⟩
      intro hyp
      cases l1 with
      | nil =>
          rw [show ([] : List EvItem) ++ item :: l2 = item :: l2 from rfl] at hyp
          rw [show ([] : List EvItem) ++ l2 = l2 from rfl]
          rw [evidenceCheck_cons] at hyp
          rw [List.any_cons, hitem, Bool.false_or] at hyp
          cases l2 with
          | nil => simp at hyp
          | cons b bs =>
              rw [evidenceCheck_cons]
              cases hany : (b :: bs).any
                  (fun it => it.quote ≠ "" && !quote_in_readme nfkc it.quote readme) with
              | true => simp
              | false => rw [hany] at hyp; simp at hyp
      | cons a as =>
          rw [show (a :: as) ++ item :: l2 = a :: (as ++ item :: l2) from rfl] at hyp
          rw [evidenceCheck_cons] at hyp
          rw [show (a :: as) ++ l2 = a :: (as ++ l2) from rfl, evidenceCheck_cons]
          have hsame : (a :: (as ++ item :: l2)).any
              (fun it => it.quote ≠ "" && !quote_in_readme nfkc it.quote readme) =
              (a :: (as ++ l2)).any
              (fun it => it.quote ≠ "" && !quote_in_readme nfkc it.quote readme) := by
            simp [List.any_cons, List.any_append, hitem2]
          rw [hsame] at hyp
          cases hany : (a :: (as ++ l2)).any
              (fun it => it.quote ≠ "" && !quote_in_readme nfkc it.quote readme) with
          | true => simp
          | false => rw [hany] at hyp; simp at hyp

/-- Witness for the amended C6 theorem: a verbatim quote added next to a
failing one; the mismatch persists with or without it, and the empty-list
downgrade fires. -/
theorem evidence_monotonic_witness :
    strHas ("alpha" : String).toList ("alpha beta" : String).toList = true ∧
    ((evidenceCheck id true ⟨"high", [⟨"nope"⟩, ⟨"alpha"⟩]⟩ "alpha beta").2
        = ["Evidence: Missing"] ∨
      (evidenceCheck id true ⟨"high", [⟨"nope"⟩, ⟨"alpha"⟩]⟩ "alpha beta").2
        = ["Evidence: Mismatch"] →
      (evidenceCheck id true ⟨"high", [⟨"nope"⟩]⟩ "alpha beta").2
        = ["Evidence: Missing"] ∨
      (evidenceCheck id true ⟨"high", [⟨"nope"⟩]⟩ "alpha beta").2
        = ["Evidence: Mismatch"]) ∧
    (true = true →
      evidenceCheck id true ⟨"high", ([] : List EvItem)⟩ "alpha beta" =
        (⟨"low", []⟩, ["Evidence: Missing"])) :=
  ⟨by decide,
    (evidence_monotonic id true "high" "alpha beta" [⟨"nope"⟩] [] ⟨"alpha"⟩ (by decide)).1,
    (evidence_monotonic id true "high" "alpha beta" [⟨"nope"⟩] [] ⟨"alpha"⟩ (by decide)).2⟩

/-- Shared dedup behaviour: when two candidates produce the same signature and
the first one's signature is new, the first is kept and the second is skipped
with the first identity as canonical. -/
theorem sigGate_dedup {seen : List (String × String)} {idA idB r1 r2 : String}
    {fdsA fdsB : Option (List FileDetail)}
    (hsig : compute_repo_signature r1 fdsA = compute_repo_signature r2 fdsB)
    (hne : idA ≠ idB)
    (hnew : getSig seen (compute_repo_signature r1 fdsA) = none) :
    (sigGate seen idA r1 fdsA).1 = none ∧
    (sigGate (sigGate seen idA r1 fdsA).2 idB r2 fdsB).1 = some idA := by
  have h1 : sigGate seen idA r1 fdsA =
      (none, setSig seen (compute_repo_signature r1 fdsA) idA) := by
    simp [sigGate, hnew]
  refine ⟨by rw [h1], ?_⟩
  rw [h1]
  have hget : getSig (setSig seen (compute_repo_signature r1 fdsA) idA)
      (compute_repo_signature r2 fdsB) = some idA := by
    rw [← hsig]
    simp [getSig, setSig]
  simp only [sigGate, hget]
  simp [hne]

/-- **C7.** Two candidates in one run with byte-identical README text and equal
non-README path sets but different identities produce the same content
signature; the first is kept, the second is skipped as a duplicate with the
first identity canonical. -/
theorem duplicate_content_signature (seen : List (String × String))
    (idA idB readme : String) (fdsA fdsB : List FileDetail)
    (hne : idA ≠ idB)
    (hpaths : (sigPaths fdsA).toFinset = (sigPaths fdsB).toFinset)
    (hnew : getSig seen (compute_repo_signature readme (some fdsA)) = none) :
    compute_repo_signature readme (some fdsA) =
      compute_repo_signature readme (some fdsB) ∧
    (sigGate seen idA readme (some fdsA)).1 = none ∧
    (sigGate (sigGate seen idA readme (some fdsA)).2 idB readme (some fdsB)).1
      = some idA := by
  have hsig : compute_repo_signature readme (some fdsA) =
      compute_repo_signature readme (some fdsB) := by
    have hform : ∀ fds : List FileDetail, compute_repo_signature readme (some fds) =
        String.mk (List.take 20000 (lowerChars (collapseWs (maskWalletAux false readme.toList))))
          ++ "\n---\n" ++ String.intercalate "|" ((sortedStrings (sigPaths fds)).take 80) :=
      fun _ => rfl
    rw [hform, hform, sortedStrings_congr hpaths]
  exact ⟨hsig, sigGate_dedup hsig hne hnew⟩

/-- Witness for C7: same README, same single weight file (one listing carries
an extra README entry, which the path set ignores), different identities. -/
theorem duplicate_content_signature_witness :
    (("a/x" : String) ≠ "b/x") ∧
    (sigPaths [⟨"w.bin", 1, none⟩, ⟨"README.md", 1, none⟩]).toFinset
      = (sigPaths [⟨"w.bin", 2, none⟩]).toFinset ∧
    (sigGate (sigGate [] "a/x" "hello readme" (some [⟨"w.bin", 1, none⟩, ⟨"README.md", 1, none⟩])).2
      "b/x" "hello readme" (some [⟨"w.bin", 2, none⟩])).1 = some "a/x" :=
  ⟨by decide, by decide,
    (duplicate_content_signature [] "a/x" "b/x" "hello readme"
      [⟨"w.bin", 1, none⟩, ⟨"README.md", 1, none⟩] [⟨"w.bin", 2, none⟩]
      (by decide) (by decide) rfl).2.2⟩

/-- The `\b` context after scanning a prefix: the word-character status of its
last character (or the inherited flag when it is empty). -/
def endWord (w : Bool) (s0 : List Char) : Bool := (s0.getLast?).elim w isWordChar

theorem endWord_cons (w : Bool) (c : Char) (cs : List Char) :
    endWord w (c :: cs) = endWord (isWordChar c) cs := by
  cases cs with
  | nil => simp [endWord]
  | cons d ds =>
      unfold endWord
      rw [List.getLast?_cons_cons]
      cases hgl : (d :: ds).getLast? with
      | none => simp at hgl
      | some x => rfl

theorem walletMatchAt_ne0 {c : Char} (hc : c ≠ '0') (l : List Char) :
    walletMatchAt (c :: l) = none := by
  cases l with
  | nil => rfl
  | cons d ds => simp [walletMatchAt, hc]

theorem hexTake_append : ∀ (h rest : List Char), (∀ c ∈ h, isHexDigit c = true) →
    hexTake h.length (h ++ rest) = some rest := by
  intro h
  induction h with
  | nil => intro rest _; rfl
  | cons c cs ih =>
      intro rest hhex
      simp only [List.length_cons, List.cons_append, hexTake, hhex c (by simp)]
      exact ih rest (fun d hd => hhex d (by simp [hd]))

theorem walletMatchAt_addr {h s1 : List Char} (hlen : h.length = 40)
    (hhex : ∀ c ∈ h, isHexDigit c = true)
    (hb : s1 = [] ∨ ∃ d ds, s1 = d :: ds ∧ isWordChar d = false) :
    walletMatchAt ('0' :: 'x' :: (h ++ s1)) = some s1 := by
  have hx : hexTake 40 (h ++ s1) = some s1 := by
    rw [← hlen]; exact hexTake_append h s1 hhex
  rcases hb with rfl | ⟨d, ds, rfl, hd⟩
  · simp only [List.append_nil] at hx
    simp [walletMatchAt, hx]
  · simp [walletMatchAt, hx, hd]

theorem maskWalletAux_cons_word (c : Char) (cs : List Char) :
    maskWalletAux true (c :: cs) = c :: maskWalletAux (isWordChar c) cs := by
  simp [maskWalletAux]

theorem maskWalletAux_cons_ne0 {c : Char} (hc : c ≠ '0') (cs : List Char) :
    maskWalletAux false (c :: cs) = c :: maskWalletAux (isWordChar c) cs := by
  simp only [maskWalletAux, Bool.false_eq_true, if_false]
  split
  · rename_i r heq
    rw [walletMatchAt_ne0 hc] at heq
    cases heq
  · rfl

theorem maskWalletAux_addr {h s1 : List Char} (hlen : h.length = 40)
    (hhex : ∀ c ∈ h, isHexDigit c = true)
    (hb : s1 = [] ∨ ∃ d ds, s1 = d :: ds ∧ isWordChar d = false) :
    maskWalletAux false ('0' :: 'x' :: (h ++ s1)) =
      "0x<ADDR>".toList ++ maskWalletAux true s1 := by
  simp only [maskWalletAux, Bool.false_eq_true, if_false]
  split
  · rename_i r heq
    rw [walletMatchAt_addr hlen hhex hb] at heq
    injection heq with heq
    subst heq
    rfl
  · rename_i heq
    rw [walletMatchAt_addr hlen hhex hb] at heq
    cases heq

theorem maskWalletAux_append {s0 : List Char} (h0 : '0' ∉ s0) :
    ∀ (w : Bool) (rest : List Char),
      maskWalletAux w (s0 ++ rest) = s0 ++ maskWalletAux (endWord w s0) rest := by
  induction s0 with
  | nil => intro w rest; simp [endWord]
  | cons c cs ih =>
      intro w rest
      have hc : c ≠ '0' := fun h => h0 (h ▸ List.mem_cons_self c cs)
      have h0' : '0' ∉ cs := fun h => h0 (List.mem_cons_of_mem c h)
      rw [List.cons_append, endWord_cons]
      cases w with
      | true => rw [maskWalletAux_cons_word, ih h0' (isWordChar c) rest, List.cons_append]
      | false => rw [maskWalletAux_cons_ne0 hc, ih h0' (isWordChar c) rest, List.cons_append]

/-- Exact-count hex consumption distributes over any continuation once it
succeeds on the prefix alone. -/
theorem hexTake_some_append : ∀ (n : Nat) (w r X : List Char),
    hexTake n w = some r → hexTake n (w ++ X) = some (r ++ X) := by
  intro n
  induction n with
  | zero =>
      intro w r X h
      simp only [hexTake, Option.some.injEq] at h
      subst h
      rfl
  | succ m ih =>
      intro w r X h
      cases w with
      | nil => simp [hexTake] at h
      | cons c cs =>
          simp only [hexTake] at h
          rw [List.cons_append]
          simp only [hexTake]
          split at h
          · rename_i hc
            rw [if_pos hc]
            exact ih cs r X h
          · cases h

theorem hexTake_isSuffix : ∀ (n : Nat) (w r : List Char),
    hexTake n w = some r → r <:+ w := by
  intro n
  induction n with
  | zero =>
      intro w r h
      simp only [hexTake, Option.some.injEq] at h
      subst h
      exact List.suffix_refl _
  | succ m ih =>
      intro n r h
      cases n with
      | nil => simp [hexTake] at h
      | cons c cs =>
          simp only [hexTake] at h
          split at h
          · exact (ih cs r h).trans (List.suffix_cons c cs)
          · cases h

/-- Hex consumption that fails on the prefix either still fails with a `0x…`
continuation attached, or stops exactly at the continuation's `x` (which is
not a hex digit). -/
theorem hexTake_none_cont : ∀ (n : Nat) (w v : List Char), hexTake n w = none →
    hexTake n (w ++ '0' :: 'x' :: v) = none ∨
      hexTake n (w ++ '0' :: 'x' :: v) = some ('x' :: v) := by
  intro n
  induction n with
  | zero => intro w v h; simp [hexTake] at h
  | succ m ih =>
      intro w v h
      cases w with
      | nil =>
          rw [List.nil_append]
          have h0 : isHexDigit '0' = true := rfl
          simp only [hexTake, h0, if_true]
          cases m with
          | zero => right; rfl
          | succ k =>
              left
              have hx : isHexDigit 'x' = false := rfl
              simp [hexTake, hx]
      | cons c cs =>
          simp only [hexTake] at h
          rw [List.cons_append]
          split at h
          · rename_i hc
            simp only [hexTake, if_pos hc]
            exact ih cs v h
          · rename_i hc
            left
            simp only [hexTake, if_neg hc]

/-- A wallet-address match attempt against a prefix that is followed by a word
character (the `0` of a following address): it succeeds only when the whole
42-character window and a non-word boundary character lie inside the prefix. -/
def walletMatchInner (u : List Char) : Option (List Char) :=
  match u with
  | c1 :: c2 :: rest =>
      if c1 = '0' && c2 = 'x' then
        match hexTake 40 rest with
        | some r =>
            match r with
            | [] => none
            | d :: _ => if isWordChar d then none else some r
        | none => none
      else none
  | _ => none

theorem walletMatchInner_some {u r : List Char} (h : walletMatchInner u = some r) :
    r ≠ [] ∧ r <:+ u ∧ r.length + 42 = u.length := by
  match u with
  | [] => cases h
  | [c] => cases h
  | c1 :: c2 :: rest =>
      simp only [walletMatchInner] at h
      split at h
      · cases hx : hexTake 40 rest with
        | none => rw [hx] at h; cases h
        | some r0 =>
            rw [hx] at h
            cases r0 with
            | nil => simp at h
            | cons d ds =>
                simp only at h
                split at h
                · cases h
                · cases h
                  have hsuf : (d :: ds) <:+ rest := hexTake_isSuffix 40 rest (d :: ds) hx
                  have hlen := hexTake_length 40 rest (d :: ds) hx
                  refine ⟨by simp, ?_, ?_⟩
                  · exact (hsuf.trans (List.suffix_cons c2 rest)).trans
                      (List.suffix_cons c1 (c2 :: rest))
                  · simp only [List.length_cons] at hlen ⊢
                    omega
      · cases h

/-- A successful in-prefix match behaves identically with the `0x…`
continuation attached. -/
theorem walletMatchInner_sound {u r : List Char} (h : walletMatchInner u = some r) :
    ∀ v, walletMatchAt (u ++ '0' :: 'x' :: v) = some (r ++ '0' :: 'x' :: v) := by
  match u with
  | [] => cases h
  | [c] => cases h
  | c1 :: c2 :: rest =>
      intro v
      simp only [walletMatchInner] at h
      split at h
      · rename_i hc
        cases hx : hexTake 40 rest with
        | none => rw [hx] at h; cases h
        | some r0 =>
            rw [hx] at h
            cases r0 with
            | nil => simp at h
            | cons d ds =>
                simp only at h
                split at h
                · cases h
                · rename_i hd
                  cases h
                  have hx' := hexTake_some_append 40 rest (d :: ds) ('0' :: 'x' :: v) hx
                  show walletMatchAt (c1 :: c2 :: (rest ++ '0' :: 'x' :: v)) = _
                  simp only [walletMatchAt, if_pos hc, hx']
                  simp [hd]
      · cases h

/-- A failed in-prefix match remains a failure with the `0x…` continuation
attached: the match window cannot cross the prefix boundary, because the
continuation's `x` is not a hex digit and `0`/`x` are word characters. -/
theorem walletMatchInner_complete {u : List Char} (h : walletMatchInner u = none)
    (hu : u ≠ []) : ∀ v, walletMatchAt (u ++ '0' :: 'x' :: v) = none := by
  match u with
  | [] => exact absurd rfl hu
  | [c] =>
      intro v
      show walletMatchAt (c :: '0' :: 'x' :: v) = none
      have hzx : (('0' : Char) = 'x') = False := by simp
      simp [walletMatchAt, hzx]
  | c1 :: c2 :: rest =>
      intro v
      simp only [walletMatchInner] at h
      show walletMatchAt (c1 :: c2 :: (rest ++ '0' :: 'x' :: v)) = none
      simp only [walletMatchAt]
      by_cases hc : (c1 = '0' && c2 = 'x') = true
      · rw [if_pos hc]
        rw [if_pos hc] at h
        cases hx : hexTake 40 rest with
        | some r0 =>
            rw [hx] at h
            have hx' := hexTake_some_append 40 rest r0 ('0' :: 'x' :: v) hx
            rw [hx']
            cases r0 with
            | nil =>
                have h0 : isWordChar '0' = true := rfl
                simp [h0]
            | cons d ds =>
                simp only at h
                split at h
                · rename_i hd
                  simp [hd]
                · cases h
        | none =>
            rcases hexTake_none_cont 40 rest v hx with h' | h'
            · rw [h']
            · rw [h']
              have hxw : isWordChar 'x' = true := rfl
              simp [hxw]
      · rw [if_neg hc]

/-- One scan step from a non-word context, as a plain (non-dependent) match. -/
theorem maskWalletAux_cons_false (c : Char) (cs : List Char) :
    maskWalletAux false (c :: cs) =
      (match walletMatchAt (c :: cs) with
       | some r => "0x<ADDR>".toList ++ maskWalletAux true r
       | none => c :: maskWalletAux (isWordChar c) cs) := by
  cases hm : walletMatchAt (c :: cs) with
  | some r =>
      simp only [maskWalletAux, Bool.false_eq_true, if_false]
      split
      · rename_i r' heq
        rw [hm] at heq
        injection heq with heq
        subst heq
        rfl
      · rename_i heq
        rw [hm] at heq
        cases heq
  | none =>
      simp only [maskWalletAux, Bool.false_eq_true, if_false]
      split
      · rename_i r' heq
        rw [hm] at heq
        cases heq
      · rfl

theorem getLast?_of_suffix {r u : List Char} (h : r <:+ u) (hne : r ≠ []) :
    r.getLast? = u.getLast? := by
  obtain ⟨pre, rfl⟩ := h
  exact (List.getLast?_append_of_ne_nil pre hne).symm

/-- Congruence of the wallet scan through an arbitrary shared prefix ending in
a non-word character: every match attempt inside the prefix is decided by the
prefix alone, and no match ends flush with it (the following `0` is a word
character), so the two scans agree as soon as they agree from the address
onward with a non-word left context. -/
theorem maskCongr : ∀ (n : Nat) (s : List Char), s.length ≤ n → s ≠ [] →
    (∀ c ∈ s.getLast?, isWordChar c = false) →
    ∀ (v1 v2 : List Char),
      maskWalletAux false ('0' :: 'x' :: v1) = maskWalletAux false ('0' :: 'x' :: v2) →
      ∀ w, maskWalletAux w (s ++ '0' :: 'x' :: v1) = maskWalletAux w (s ++ '0' :: 'x' :: v2) := by
  intro n
  induction n with
  | zero =>
      intro s hle hne
      cases s with
      | nil => exact absurd rfl hne
      | cons c cs => simp at hle
  | succ m ih =>
      intro s hle hne hlast v1 v2 hcont w
      cases s with
      | nil => exact absurd rfl hne
      | cons c cs =>
          have htail : maskWalletAux (isWordChar c) (cs ++ '0' :: 'x' :: v1) =
              maskWalletAux (isWordChar c) (cs ++ '0' :: 'x' :: v2) := by
            cases cs with
            | nil =>
                have hc : isWordChar c = false := hlast c (by simp)
                rw [List.nil_append, List.nil_append, hc]
                exact hcont
            | cons d ds =>
                refine ih (d :: ds) ?_ (by simp) ?_ v1 v2 hcont (isWordChar c)
                · simp only [List.length_cons] at hle ⊢
                  omega
                · intro x hx
                  refine hlast x ?_
                  simpa [List.getLast?_cons_cons] using hx
          cases w with
          | true =>
              rw [List.cons_append, List.cons_append, maskWalletAux_cons_word,
                maskWalletAux_cons_word, htail]
          | false =>
              rw [List.cons_append, List.cons_append, maskWalletAux_cons_false,
                maskWalletAux_cons_false]
              cases hinner : walletMatchInner (c :: cs) with
              | none =>
                  have hn1 := walletMatchInner_complete hinner (by simp) v1
                  have hn2 := walletMatchInner_complete hinner (by simp) v2
                  rw [List.cons_append] at hn1 hn2
                  rw [hn1, hn2]
                  simp only [htail]
              | some r =>
                  obtain ⟨hrne, hrsuf, hrlen⟩ := walletMatchInner_some hinner
                  have hs1 := walletMatchInner_sound hinner v1
                  have hs2 := walletMatchInner_sound hinner v2
                  rw [List.cons_append] at hs1 hs2
                  rw [hs1, hs2]
                  show "0x<ADDR>".toList ++ maskWalletAux true (r ++ '0' :: 'x' :: v1) =
                    "0x<ADDR>".toList ++ maskWalletAux true (r ++ '0' :: 'x' :: v2)
                  have hr : maskWalletAux true (r ++ '0' :: 'x' :: v1) =
                      maskWalletAux true (r ++ '0' :: 'x' :: v2) := by
                    refine ih r ?_ hrne ?_ v1 v2 hcont true
                    · simp only [List.length_cons] at hrlen hle
                      omega
                    · intro x hx
                      refine hlast x ?_
                      rw [← getLast?_of_suffix hrsuf hrne]
                      exact hx
                  rw [hr]

/-- A well-formed 40-hex-digit address payload. -/
def hexOk (h : List Char) : Prop := h.length = 40 ∧ ∀ c ∈ h, isHexDigit c = true

/-- A text segment standing between two wallet addresses: nonempty, delimiting
both its neighbours with non-word characters. -/
def segOk (s : List Char) : Prop :=
  s ≠ [] ∧ (∀ c ∈ s.head?, isWordChar c = false) ∧
    (∀ c ∈ s.getLast?, isWordChar c = false)

/-- The text after the last address: empty or starting with a non-word
character. -/
def tailOk (t : List Char) : Prop := ∀ c ∈ t.head?, isWordChar c = false

/-- A README template: alternating (segment, address-hex) pairs followed by a
final tail. -/
def instWallet : List (List Char × List Char) → List Char → List Char
  | [], tail => tail
  | (s, h) :: rest, tail => s ++ '0' :: 'x' :: (h ++ instWallet rest tail)

/-- Matching-segment relation between the two READMEs' templates: equal
segments, both hex payloads well formed. -/
def pairOk (a b : List Char × List Char) : Prop :=
  a.1 = b.1 ∧ segOk a.1 ∧ hexOk a.2 ∧ hexOk b.2

theorem forall₂_segA {ps1 ps2 : List (List Char × List Char)}
    (h : List.Forall₂ pairOk ps1 ps2) : ∀ p ∈ ps1, segOk p.1 := by
  induction h with
  | nil => intro p hp; cases hp
  | cons hab _ ih =>
      intro p hp
      rcases List.mem_cons.mp hp with rfl | hp
      · exact hab.2.1
      · exact ih p hp

theorem forall₂_segB {ps1 ps2 : List (List Char × List Char)}
    (h : List.Forall₂ pairOk ps1 ps2) : ∀ p ∈ ps2, segOk p.1 := by
  induction h with
  | nil => intro p hp; cases hp
  | cons hab _ ih =>
      intro p hp
      rcases List.mem_cons.mp hp with rfl | hp
      · exact hab.1 ▸ hab.2.1
      · exact ih p hp

/-- The instantiated template is empty or starts with a non-word character,
giving the boundary after a preceding address. -/
theorem instWallet_boundary (ps : List (List Char × List Char)) (tail : List Char)
    (hps : ∀ p ∈ ps, segOk p.1) (htail : tailOk tail) :
    instWallet ps tail = [] ∨
      ∃ d ds, instWallet ps tail = d :: ds ∧ isWordChar d = false := by
  cases ps with
  | nil =>
      cases htl : tail with
      | nil => left; simp [instWallet, htl]
      | cons d ds =>
          right
          exact ⟨d, ds, by simp [instWallet, htl], htail d (by simp [htl])⟩
  | cons p rest =>
      obtain ⟨s, h⟩ := p
      obtain ⟨hne, hhead, -⟩ := hps (s, h) (by simp)
      cases hs : s with
      | nil => exact absurd hs hne
      | cons d ds =>
          right
          refine ⟨d, ds ++ '0' :: 'x' :: (h ++ instWallet rest tail), ?_, ?_⟩
          · simp [instWallet, hs]
          · exact hhead d (by simp [hs])

/-- Masking two instantiated templates with matching segments and arbitrary
well-formed addresses gives equal outputs, from any entry state. -/
theorem maskInstWallet (tail : List Char) (htail : tailOk tail) :
    ∀ (ps1 ps2 : List (List Char × List Char)), List.Forall₂ pairOk ps1 ps2 →
      ∀ w, maskWalletAux w (instWallet ps1 tail) = maskWalletAux w (instWallet ps2 tail) := by
  intro ps1 ps2 hrel
  induction hrel with
  | nil => intro w; rfl
  | cons hab hrest ih =>
      rename_i a b as bs
      intro w
      obtain ⟨hseq, hsegok, hhexA, hhexB⟩ := hab
      obtain ⟨sa, ha⟩ := a
      obtain ⟨sb, hb⟩ := b
      simp only at hseq hsegok hhexA hhexB
      subst hseq
      obtain ⟨hne, hhead, hlast⟩ := hsegok
      show maskWalletAux w (sa ++ '0' :: 'x' :: (ha ++ instWallet as tail)) =
        maskWalletAux w (sa ++ '0' :: 'x' :: (hb ++ instWallet bs tail))
      have hcont : maskWalletAux false ('0' :: 'x' :: (ha ++ instWallet as tail)) =
          maskWalletAux false ('0' :: 'x' :: (hb ++ instWallet bs tail)) := by
        rw [maskWalletAux_addr hhexA.1 hhexA.2
            (instWallet_boundary as tail (forall₂_segA hrest) htail),
          maskWalletAux_addr hhexB.1 hhexB.2
            (instWallet_boundary bs tail (forall₂_segB hrest) htail)]
        rw [ih true]
      exact maskCongr sa.length sa le_rfl hne hlast _ _ hcont w

/-- **C10.** `compute_repo_signature` replaces every boundary-delimited
0x-prefixed 40-hex-digit wallet address (`\b0x[a-fA-F0-9]{40}\b`) with the
fixed placeholder before hashing: for every pair of READMEs built from the
same surrounding text — an arbitrary leading segment, then any number of
wallet addresses separated by matching delimiter segments — differing only in
the addresses' hex digits, and any listings with equal non-README path sets,
the content signatures are equal, and the later-encountered candidate is
deduplicated with the first identity canonical. -/
theorem wallet_address_masked_dedup
    (s0 hF1 hF2 tail : List Char) (ps1 ps2 : List (List Char × List Char))
    (fdsA fdsB : List FileDetail) (seen : List (String × String)) (idA idB : String)
    (hhex1 : hexOk hF1) (hhex2 : hexOk hF2)
    (hs0 : ∀ c ∈ s0.getLast?, isWordChar c = false)
    (hrel : List.Forall₂ pairOk ps1 ps2)
    (htail : tailOk tail)
    (hpaths : (sigPaths fdsA).toFinset = (sigPaths fdsB).toFinset)
    (hne : idA ≠ idB)
    (hnew : getSig seen (compute_repo_signature
      (String.mk (s0 ++ '0' :: 'x' :: (hF1 ++ instWallet ps1 tail))) (some fdsA)) = none) :
    compute_repo_signature
        (String.mk (s0 ++ '0' :: 'x' :: (hF1 ++ instWallet ps1 tail))) (some fdsA) =
      compute_repo_signature
        (String.mk (s0 ++ '0' :: 'x' :: (hF2 ++ instWallet ps2 tail))) (some fdsB) ∧
    (sigGate seen idA
      (String.mk (s0 ++ '0' :: 'x' :: (hF1 ++ instWallet ps1 tail))) (some fdsA)).1
      = none ∧
    (sigGate (sigGate seen idA
        (String.mk (s0 ++ '0' :: 'x' :: (hF1 ++ instWallet ps1 tail))) (some fdsA)).2
      idB (String.mk (s0 ++ '0' :: 'x' :: (hF2 ++ instWallet ps2 tail))) (some fdsB)).1
      = some idA := by
  have hcont : maskWalletAux false ('0' :: 'x' :: (hF1 ++ instWallet ps1 tail)) =
      maskWalletAux false ('0' :: 'x' :: (hF2 ++ instWallet ps2 tail)) := by
    rw [maskWalletAux_addr hhex1.1 hhex1.2
        (instWallet_boundary ps1 tail (forall₂_segA hrel) htail),
      maskWalletAux_addr hhex2.1 hhex2.2
        (instWallet_boundary ps2 tail (forall₂_segB hrel) htail)]
    rw [maskInstWallet tail htail ps1 ps2 hrel true]
  have hmask : maskWalletAux false (s0 ++ '0' :: 'x' :: (hF1 ++ instWallet ps1 tail)) =
      maskWalletAux false (s0 ++ '0' :: 'x' :: (hF2 ++ instWallet ps2 tail)) := by
    cases s0 with
    | nil => rw [List.nil_append, List.nil_append]; exact hcont
    | cons c cs =>
        exact maskCongr (c :: cs).length (c :: cs) le_rfl (by simp) hs0 _ _ hcont false
  have hform : ∀ (r : List Char) (fds : List FileDetail),
      compute_repo_signature (String.mk r) (some fds) =
        String.mk (List.take 20000 (lowerChars (collapseWs (maskWalletAux false r))))
          ++ "\n---\n" ++ String.intercalate "|" ((sortedStrings (sigPaths fds)).take 80) :=
    fun _ _ => rfl
  have hsig : compute_repo_signature
      (String.mk (s0 ++ '0' :: 'x' :: (hF1 ++ instWallet ps1 tail))) (some fdsA) =
      compute_repo_signature
        (String.mk (s0 ++ '0' :: 'x' :: (hF2 ++ instWallet ps2 tail))) (some fdsB) := by
    rw [hform, hform, sortedStrings_congr hpaths, hmask]
  exact ⟨hsig, sigGate_dedup hsig hne hnew⟩

/-- Witness for C10: two READMEs with two wallet addresses each, the prefix
and the middle segment both containing the digit `0`, all four addresses
distinct. -/
theorem wallet_address_masked_dedup_witness :
    hexOk (List.replicate 40 'a') ∧
    (sigGate (sigGate [] "a/x"
        (String.mk ("Send 100 coins to ".toList ++ '0' :: 'x' ::
          (List.replicate 40 'a' ++ instWallet
            [(" and 0 more to ".toList, List.replicate 40 'b')] "!".toList)))
        (some [])).2
      "b/x" (String.mk ("Send 100 coins to ".toList ++ '0' :: 'x' ::
          (('0' :: List.replicate 39 'f') ++ instWallet
            [(" and 0 more to ".toList, List.replicate 40 'c')] "!".toList)))
      (some [])).1 = some "a/x" :=
  ⟨⟨by decide, by decide⟩,
    (wallet_address_masked_dedup "Send 100 coins to ".toList
      (List.replicate 40 'a') ('0' :: List.replicate 39 'f') "!".toList
      [(" and 0 more to ".toList, List.replicate 40 'b')]
      [(" and 0 more to ".toList, List.replicate 40 'c')]
      [] [] [] "a/x" "b/x"
      ⟨by decide, by decide⟩ ⟨by decide, by decide⟩ (by decide)
      (List.Forall₂.cons
        ⟨rfl, ⟨by decide, by decide, by decide⟩, ⟨by decide, by decide⟩,
          ⟨by decide, by decide⟩⟩
        List.Forall₂.nil)
      (by unfold tailOk; decide) rfl (by decide) rfl).2.2⟩

/-- **C5.** A delimiter-bounded export/quantization token in the bare model
name alone makes `is_export_or_conversion` return true — with no matching tag,
no file listing evidence (empty listing) — and the phase-0 gate then hard-denies
the candidate with `skip:export_conversion`. The repository's own test suite
(`test_is_export_or_conversion`) asserts `False` for exactly such name-only
matches, and the file-listing argument is never consulted. -/
theorem export_name_substring_hard_denial :
    has_quant_in_name "user/model-onnx" = true ∧
    is_export_or_conversion "user/model-onnx" [] (some []) = true ∧
    is_export_or_conversion "user/model-onnx" [] none = true ∧
    (processGates ⟨"user/model-onnx", "", []⟩ (some []) (some "some readme") [] false 1 []).1
      = GateOutcome.skip "skip:export_conversion" ["skip:export_conversion"] :=
  ⟨rfl, rfl, rfl, rfl⟩

/-- Every security token is one of the three warning reasons. -/
theorem securityWarnTokens_mem {fds : Option (List FileDetail)} {t : String}
    (h : t ∈ securityWarnTokens fds) :
    t = "warn:security_scan_flagged" ∨ t = "warn:executable_file_present" ∨
      t = "warn:script_file_present" := by
  cases fds with
  | none => cases h
  | some l =>
      simp only [securityWarnTokens, List.mem_flatten, List.mem_map] at h
      obtain ⟨sub, ⟨f, -, rfl⟩, hsub⟩ := h
      simp only [List.mem_append] at hsub
      rcases hsub with (h1 | h1) | h1 <;>
      · split at h1
        · simp only [List.mem_singleton] at h1
          subst h1
          simp
        · cases h1

/-- The nsfw token appears in the phase-0 trace iff its gate fired. -/
theorem phase0_mem_nsfw (mi : ModelInfo) (fds : Option (List FileDetail)) :
    "skip:nsfw_excluded" ∈ phase0Trace mi fds ↔
      is_excluded_content mi.modelId mi.tags = true := by
  constructor
  · intro h
    simp only [phase0Trace, List.append_assoc, List.mem_append] at h
    rcases h with h | h | h | h
    · rcases securityWarnTokens_mem h with h | h | h <;> exact absurd h (by decide)
    · split at h
      · simp at h
      · cases h
    · split at h
      · assumption
      · cases h
    · split at h
      · simp at h
      · cases h
  · intro h
    simp [phase0Trace, h]

/-- The generative-visual token appears in the phase-0 trace iff its gate
fired. -/
theorem phase0_mem_gv (mi : ModelInfo) (fds : Option (List FileDetail)) :
    "skip:generative_visual" ∈ phase0Trace mi fds ↔
      is_generative_visual mi mi.tags = true := by
  constructor
  · intro h
    simp only [phase0Trace, List.append_assoc, List.mem_append] at h
    rcases h with h | h | h | h
    · rcases securityWarnTokens_mem h with h | h | h <;> exact absurd h (by decide)
    · split at h
      · assumption
      · cases h
    · split at h
      · simp at h
      · cases h
    · split at h
      · simp at h
      · cases h
  · intro h
    simp [phase0Trace, h]

/-- The export/conversion token appears in the phase-0 trace iff its gate
fired. -/
theorem phase0_mem_export (mi : ModelInfo) (fds : Option (List FileDetail)) :
    "skip:export_conversion" ∈ phase0Trace mi fds ↔
      is_export_or_conversion mi.modelId mi.tags fds = true := by
  constructor
  · intro h
    simp only [phase0Trace, List.append_assoc, List.mem_append] at h
    rcases h with h | h | h | h
    · rcases securityWarnTokens_mem h with h | h | h <;> exact absurd h (by decide)
    · split at h
      · simp at h
      · cases h
    · split at h
      · simp at h
      · cases h
    · split at h
      · assumption
      · cases h
  · intro h
    simp [phase0Trace, h]

theorem headD_append_left {α : Type} (l l' : List α) (d : α) (h : l ≠ []) :
    (l ++ l').headD d = l.headD d := by
  cases l with
  | nil => exact absurd rfl h
  | cons a as => rfl

theorem ne_nil_append {α : Type} {l : List α} (h : l ≠ []) (l' : List α) :
    l ++ l' ≠ [] := by
  cases l with
  | nil => exact absurd rfl h
  | cons a as => simp

/-- **C4 counterexample.** A candidate with an executable file (security
warning) and a generative-visual trigger: the recorded skip reason is
`warn:executable_file_present` — a warning token, not the first (or any)
denial reason produced for the candidate. -/
theorem gate_skip_reason_warning_cex :
    (processGates ⟨"acme/flux-model", "", []⟩ (some [⟨"run.exe", 0, none⟩])
        (some "a sufficiently long readme") [] false 1 []).1
      = GateOutcome.skip "warn:executable_file_present"
          ["warn:executable_file_present", "skip:generative_visual"] ∧
    ("warn:executable_file_present" : String) ≠ "skip:generative_visual" :=
  ⟨rfl, by decide⟩

/-- Reduction of the pipeline once phase 0 is clean and a README is present. -/
theorem processGates_phase0_clean {mi : ModelInfo} {fds : Option (List FileDetail)}
    {rc : String} (yamlKeys : List String) (wl : Bool) (tier : Int)
    (seen : List (String × String))
    (hg : is_generative_visual mi mi.tags = false)
    (hn : is_excluded_content mi.modelId mi.tags = false)
    (he : is_export_or_conversion mi.modelId mi.tags fds = false)
    (hrc0 : rc ≠ "") :
    processGates mi fds (some rc) yamlKeys wl tier seen =
      (match firstPostDenyReason mi fds rc yamlKeys wl tier with
       | some r => (GateOutcome.skip r (phase0Trace mi fds), seen)
       | none =>
           match sigGate seen mi.modelId rc fds with
           | (some _, seen') =>
               (GateOutcome.skip "skip:duplicate_signature" (phase0Trace mi fds), seen')
           | (none, seen') => (GateOutcome.proceed (phase0Trace mi fds), seen')) := by
  have hm1 : "skip:nsfw_excluded" ∉ phase0Trace mi fds := by
    rw [phase0_mem_nsfw]; simp [hn]
  have hm2 : "skip:generative_visual" ∉ phase0Trace mi fds := by
    rw [phase0_mem_gv]; simp [hg]
  have hm3 : "skip:export_conversion" ∉ phase0Trace mi fds := by
    rw [phase0_mem_export]; simp [he]
  simp only [processGates]
  rw [if_neg hm1, if_neg (fun h => h.elim hm2 hm3)]
  simp only [hrc0, if_neg]
  rfl

/-- **C4 (amended).** Warnings never stop the chain: with no deny predicate
firing the candidate proceeds (security warnings only add trace entries). A
denied candidate undergoes no further gates after its skip: in phase 0 all
three content gates are evaluated first, the nsfw denial takes precedence, and
the other phase-0 denials record the FIRST entry of the accumulated trace —
which is the first security warning token when warnings preceded the denial,
not necessarily a denial reason. Post-fetch denials stop at the first denying
gate and record that gate's own reason. -/
theorem gate_chain_denial_semantics (mi : ModelInfo) (fds : Option (List FileDetail))
    (readme : Option String) (yamlKeys : List String) (wl : Bool) (tier : Int)
    (seen : List (String × String)) :
    (∀ rc, readme = some rc → rc ≠ "" →
      is_generative_visual mi mi.tags = false →
      is_excluded_content mi.modelId mi.tags = false →
      is_export_or_conversion mi.modelId mi.tags fds = false →
      firstPostDenyReason mi fds rc yamlKeys wl tier = none →
      getSig seen (compute_repo_signature rc fds) = none →
      (processGates mi fds readme yamlKeys wl tier seen).1 =
        GateOutcome.proceed (phase0Trace mi fds)) ∧
    (is_excluded_content mi.modelId mi.tags = true →
      (processGates mi fds readme yamlKeys wl tier seen).1 =
        GateOutcome.skip "skip:nsfw_excluded" (phase0Trace mi fds)) ∧
    (is_excluded_content mi.modelId mi.tags = false →
      (is_generative_visual mi mi.tags = true ∨
        is_export_or_conversion mi.modelId mi.tags fds = true) →
      (processGates mi fds readme yamlKeys wl tier seen).1 =
        GateOutcome.skip ((phase0Trace mi fds).headD "") (phase0Trace mi fds)) ∧
    (securityWarnTokens fds ≠ [] →
      (phase0Trace mi fds).headD "" = (securityWarnTokens fds).headD "") ∧
    (∀ rc r, readme = some rc → rc ≠ "" →
      is_generative_visual mi mi.tags = false →
      is_excluded_content mi.modelId mi.tags = false →
      is_export_or_conversion mi.modelId mi.tags fds = false →
      firstPostDenyReason mi fds rc yamlKeys wl tier = some r →
      (processGates mi fds readme yamlKeys wl tier seen).1 =
        GateOutcome.skip r (phase0Trace mi fds)) := by
  refine ⟨?_, ?_, ?_, ?_, ?_⟩
  · intro rc hrc hrc0 hg hn he hpost hnew
    subst hrc
    rw [processGates_phase0_clean yamlKeys wl tier seen hg hn he hrc0, hpost]
    have hgate : sigGate seen mi.modelId rc fds =
        (none, setSig seen (compute_repo_signature rc fds) mi.modelId) := by
      simp [sigGate, hnew]
    rw [hgate]
  · intro hn
    have hm1 : "skip:nsfw_excluded" ∈ phase0Trace mi fds := (phase0_mem_nsfw mi fds).mpr hn
    simp only [processGates]
    rw [if_pos hm1]
  · intro hn hge
    have hm1 : "skip:nsfw_excluded" ∉ phase0Trace mi fds := by
      rw [phase0_mem_nsfw]; simp [hn]
    have hm2 : "skip:generative_visual" ∈ phase0Trace mi fds ∨
        "skip:export_conversion" ∈ phase0Trace mi fds := by
      rcases hge with h | h
      · exact Or.inl ((phase0_mem_gv mi fds).mpr h)
      · exact Or.inr ((phase0_mem_export mi fds).mpr h)
    simp only [processGates]
    rw [if_neg hm1, if_pos hm2]
  · intro hw
    simp only [phase0Trace]
    rw [headD_append_left _ _ _ (ne_nil_append (ne_nil_append hw _) _),
      headD_append_left _ _ _ (ne_nil_append hw _),
      headD_append_left _ _ _ hw]
  · intro rc r hrc hrc0 hg hn he hpost
    subst hrc
    rw [processGates_phase0_clean yamlKeys wl tier seen hg hn he hrc0, hpost]

set_option maxRecDepth 8192 in
/-- Witness for the amended C4 theorem: a plain candidate with a security
warning proceeds through every gate (warnings never stop the chain), at tier 3
with a substantive README. -/
theorem gate_chain_denial_semantics_witness :
    (processGates ⟨"acme/solid-model", "text-classification", []⟩
        (some [⟨"run.exe", 0, none⟩])
        (some (String.mk (List.replicate 120 'z'))) ["license"] false 3 []).1
      = GateOutcome.proceed
          (phase0Trace ⟨"acme/solid-model", "text-classification", []⟩
            (some [⟨"run.exe", 0, none⟩])) :=
  (gate_chain_denial_semantics ⟨"acme/solid-model", "text-classification", []⟩
      (some [⟨"run.exe", 0, none⟩]) (some (String.mk (List.replicate 120 'z')))
      ["license"] false 3 []).1
    (String.mk (List.replicate 120 'z')) rfl (by decide) (by decide) (by decide)
    (by decide) (by decide) rfl
